import Mathlib

/-!
Verification of the kinship-graph synthesis and labeling engine
(`experiment/data.py`): graph generation (`generate_graph`), base labeling
(`add_base_labels`), relation lookup (`find_relation_node`), relation
labeling (`add_relation_label`) and the scenario catalog (`create_graph`,
`create_graphs_tuple`).

Graphs are shallowly embedded: a directed graph is a list of node entries
and a list of edge entries, in insertion order.  Node and edge attribute
dictionaries (`networkx` stores per-element dicts) are modelled as
association lists from attribute name to value; the `type` attribute,
written only at creation time, is kept as a dedicated field of the entry.
-/

namespace KinshipData

/-! ## Attribute dictionaries -/

/-- Lookup of an attribute value, first binding wins (dict read). -/
def getAttr : List (String × Nat) → String → Option Nat
  | [], _ => none
  | (k0, v0) :: rest, k => if k0 = k then some v0 else getAttr rest k

/-- Attribute write (dict assignment): overwrite in place if the key is
present, append otherwise.  Mirrors Python dict insertion-order update. -/
def setAttr : List (String × Nat) → String → Nat → List (String × Nat)
  | [], k, v => [(k, v)]
  | (k0, v0) :: rest, k, v =>
      if k0 = k then (k0, v) :: rest else (k0, v0) :: setAttr rest k v

/-- Write the same value under every name of `ks` (the per-element loop
`for attribute in attributes: ... = value`). -/
def setAll (m : List (String × Nat)) (ks : List String) (v : Nat) :
    List (String × Nat) :=
  ks.foldl (fun acc k => setAttr acc k v) m

/-- The key list of an attribute dictionary. -/
def keysOf (m : List (String × Nat)) : List String := m.map Prod.fst

/-! ## The graph model -/

/-- A node of the directed graph: integer id, `type` attribute and the
remaining (label) attributes. -/
structure NodeEntry where
  id : Nat
  type : String
  attrs : List (String × Nat)
deriving DecidableEq, Repr

/-- A directed edge with its `type` attribute (the role name) and label
attributes. -/
structure EdgeEntry where
  src : Nat
  dst : Nat
  type : String
  attrs : List (String × Nat)
deriving DecidableEq, Repr

/-- A directed graph as built by `networkx.DiGraph` here: node entries and
edge entries in insertion order, keys unique by construction. -/
structure Graph where
  nodes : List NodeEntry
  edges : List EdgeEntry
deriving DecidableEq, Repr

/-- The ordered distinct pairs over `range n`, in the enumeration order of
`itertools.permutations(range(n), 2)` (lexicographic). -/
def permPairs (n : Nat) : List (Nat × Nat) :=
  (List.range n).flatMap fun a =>
    ((List.range n).filter (fun b => b ≠ a)).map fun b => (a, b)

/-- The increasing distinct pairs over `range n`, in the enumeration order
of `itertools.combinations(range(n), 2)` (lexicographic). -/
def combPairs (n : Nat) : List (Nat × Nat) :=
  (List.range n).flatMap fun a =>
    ((List.range n).filter (fun b => a < b)).map fun b => (a, b)

/-- Relation nodes for a list of role-player pairs, ids consecutive from
`s`. -/
def relNodes (t : String) : Nat → List (Nat × Nat) → List NodeEntry
  | _, [] => []
  | s, _ :: ps => ⟨s, t, []⟩ :: relNodes t (s + 1) ps

/-- Role edges for a list of role-player pairs: the relation node `s + i`
points at both members of the i-th pair, with role types `r1` and `r2`. -/
def relEdges (r1 r2 : String) : Nat → List (Nat × Nat) → List EdgeEntry
  | _, [] => []
  | s, (a, b) :: ps => ⟨s, a, r1, []⟩ :: ⟨s, b, r2, []⟩ :: relEdges r1 r2 (s + 1) ps

/-- `generate_graph(num_people)`: person nodes `0..n-1`, then one
`parentship` relation node per ordered distinct pair with `parent` and
`child` edges, then one `siblingship` relation node per increasing pair
with two `sibling` edges.  Fresh ids continue from `len(G.nodes)`. -/
def generateGraph (n : Nat) : Graph :=
  let pp := permPairs n
  let cp := combPairs n
  { nodes := ((List.range n).map fun i => ⟨i, "person", []⟩)
      ++ relNodes "parentship" n pp
      ++ relNodes "siblingship" (n + pp.length) cp,
    edges := relEdges "parent" "child" n pp
      ++ relEdges "sibling" "sibling" (n + pp.length) cp }

/-! Observation helpers (reads of `G.nodes[v]`, `G.edges[u, v]`,
`G.predecessors(v)`). -/

def Graph.findNode? (G : Graph) (v : Nat) : Option NodeEntry :=
  G.nodes.find? fun nd => nd.id == v

def Graph.nodeType? (G : Graph) (v : Nat) : Option String :=
  (G.findNode? v).map NodeEntry.type

def Graph.nodeAttr? (G : Graph) (v : Nat) (k : String) : Option Nat :=
  (G.findNode? v).bind fun nd => getAttr nd.attrs k

def Graph.findEdge? (G : Graph) (u v : Nat) : Option EdgeEntry :=
  G.edges.find? fun e => e.src == u && e.dst == v

def Graph.edgeType? (G : Graph) (u v : Nat) : Option String :=
  (G.findEdge? u v).map EdgeEntry.type

def Graph.edgeAttr? (G : Graph) (u v : Nat) (k : String) : Option Nat :=
  (G.findEdge? u v).bind fun e => getAttr e.attrs k

def Graph.predecessors (G : Graph) (v : Nat) : List Nat :=
  (G.edges.filter fun e => e.dst == v).map EdgeEntry.src

def Graph.nodeIds (G : Graph) : List Nat := G.nodes.map NodeEntry.id

/-- `add_base_labels(G, *attributes)`: every person node gets each named
attribute set to 1, every other node to 0, every edge to 0. -/
def addBaseLabels (G : Graph) (attributes : List String) : Graph :=
  { nodes := G.nodes.map fun nd =>
      let value := if nd.type = "person" then 1 else 0
      { nd with attrs := setAll nd.attrs attributes value },
    edges := G.edges.map fun e =>
      { e with attrs := setAll e.attrs attributes 0 } }

/-- `find_relation_node(G, relation_type, roles, roleplayers)`: scan the
common predecessors of the two role-players for a node of the requested
type whose edges to the role-players carry the requested role types. -/
def findRelationNode (G : Graph) (relationType : String)
    (roles : String × String) (roleplayers : Nat × Nat) : Option Nat :=
  ((G.predecessors roleplayers.1).filter
      (fun v => (G.predecessors roleplayers.2).contains v)).find? fun v =>
    (G.nodeType? v == some relationType)
      && (G.edgeType? v roleplayers.1 == some roles.1)
      && (G.edgeType? v roleplayers.2 == some roles.2)

/-- `add_relation_label(G, relation_type, roles, roleplayers, *attributes)`:
locate the relation and set each named attribute to 1 on the relation node
and on its two role edges.  When the lookup fails and at least one
attribute is named, the write `G.nodes[None][attribute] = 1` raises
(`None` is not a node), modelled as `none`; with no attribute names the
loop body never runs and the graph is returned unchanged. -/
def addRelationLabel (G : Graph) (relationType : String)
    (roles : String × String) (roleplayers : Nat × Nat)
    (attributes : List String) : Option Graph :=
  match findRelationNode G relationType roles roleplayers with
  | none => if attributes.isEmpty then some G else none
  | some relation => some
      { nodes := G.nodes.map fun nd =>
          if nd.id == relation then
            { nd with attrs := setAll nd.attrs attributes 1 }
          else nd,
        edges := G.edges.map fun e =>
          if e.src == relation
              && (e.dst == roleplayers.1 || e.dst == roleplayers.2) then
            { e with attrs := setAll e.attrs attributes 1 }
          else e }

/-- `add_parentship(G, parent_node, child_node, *attributes)`. -/
def addParentship (G : Graph) (parent child : Nat)
    (attributes : List String) : Option Graph :=
  addRelationLabel G "parentship" ("parent", "child") (parent, child) attributes

/-- `add_siblingship(G, sibling_node_1, sibling_node_2, *attributes)`. -/
def addSiblingship (G : Graph) (s1 s2 : Nat)
    (attributes : List String) : Option Graph :=
  addRelationLabel G "siblingship" ("sibling", "sibling") (s1, s2) attributes

/-- The `base_graph` helper of `create_graph`: generate and stamp the
`input` and `solution` labels. -/
def baseGraph (numPeople : Nat) : Graph :=
  addBaseLabels (generateGraph numPeople) ["input", "solution"]

/-- `create_graph(i)`: the scenario catalog.  `none` stands both for the
`None` returned on an unknown index and for a raised labeling error. -/
def createGraph : Nat → Option Graph
  | 0 =>
      (addParentship (baseGraph 3) 0 1 ["input", "solution"]).bind fun g =>
      (addParentship g 0 2 ["input", "solution"]).bind fun g =>
      addSiblingship g 1 2 ["solution"]
  | 1 =>
      (addSiblingship (baseGraph 3) 0 1 ["input", "solution"]).bind fun g =>
      (addSiblingship g 1 2 ["input", "solution"]).bind fun g =>
      addSiblingship g 0 2 ["solution"]
  | 2 =>
      (addParentship (baseGraph 3) 0 1 ["input", "solution"]).bind fun g =>
      addParentship g 1 2 ["input", "solution"]
  | 3 =>
      (addParentship (baseGraph 3) 0 1 ["input", "solution"]).bind fun g =>
      addSiblingship g 1 2 ["input", "solution"]
  | 5 =>
      (addParentship (baseGraph 4) 0 1 ["input", "solution"]).bind fun g =>
      (addParentship g 0 2 ["input", "solution"]).bind fun g =>
      (addParentship g 2 3 ["input", "solution"]).bind fun g =>
      addSiblingship g 1 2 ["solution"]
  | 6 =>
      (addParentship (baseGraph 4) 0 1 ["input", "solution"]).bind fun g =>
      (addParentship g 0 2 ["input", "solution"]).bind fun g =>
      (addParentship g 2 3 ["input", "solution"]).bind fun g =>
      addSiblingship g 1 2 ["solution"]
  | 7 =>
      (addParentship (baseGraph 4) 0 1 ["input", "solution"]).bind fun g =>
      (addParentship g 0 2 ["input", "solution"]).bind fun g =>
      (addParentship g 3 0 ["input", "solution"]).bind fun g =>
      addSiblingship g 1 2 ["solution"]
  | 8 =>
      (addParentship (baseGraph 4) 0 1 ["input", "solution"]).bind fun g =>
      (addParentship g 1 2 ["input", "solution"]).bind fun g =>
      addParentship g 2 3 ["input", "solution"]
  | 9 =>
      (addParentship (baseGraph 4) 0 1 ["input", "solution"]).bind fun g =>
      (addParentship g 0 2 ["input", "solution"]).bind fun g =>
      (addParentship g 0 3 ["input", "solution"]).bind fun g =>
      (addSiblingship g 1 2 ["solution"]).bind fun g =>
      (addSiblingship g 2 3 ["solution"]).bind fun g =>
      addSiblingship g 1 3 ["solution"]
  | 10 =>
      (addSiblingship (baseGraph 4) 0 1 ["input", "solution"]).bind fun g =>
      (addSiblingship g 1 2 ["input", "solution"]).bind fun g =>
      (addSiblingship g 2 3 ["input", "solution"]).bind fun g =>
      (addSiblingship g 0 2 ["solution"]).bind fun g =>
      (addSiblingship g 0 3 ["solution"]).bind fun g =>
      addSiblingship g 1 3 ["solution"]
  | 11 =>
      (addSiblingship (baseGraph 4) 0 1 ["input", "solution"]).bind fun g =>
      (addSiblingship g 1 2 ["input", "solution"]).bind fun g =>
      (addSiblingship g 2 3 ["input", "solution"]).bind fun g =>
      (addSiblingship g 0 2 ["solution"]).bind fun g =>
      (addSiblingship g 0 3 ["solution"]).bind fun g =>
      addSiblingship g 1 3 ["solution"]
  | 12 =>
      (addParentship (baseGraph 4) 0 1 ["input", "solution"]).bind fun g =>
      (addParentship g 0 2 ["input", "solution"]).bind fun g =>
      (addParentship g 3 1 ["input", "solution"]).bind fun g =>
      addSiblingship g 1 2 ["solution"]
  | _ => none

/-- `create_graphs_tuple()`. -/
def createGraphsTuple : List (Option Graph) :=
  [0, 1, 2, 3, 5, 6, 7, 8, 9, 10].map createGraph

/-! ## Structure of the pair generators -/

/-- Lexicographic order on index pairs (the enumeration order of the
`itertools` pair generators). -/
def pairLexLt (p q : Nat × Nat) : Prop :=
  p.1 < q.1 ∨ (p.1 = q.1 ∧ p.2 < q.2)

/-! ## Structure of `generateGraph` -/

/-- The person prefix of the node list. -/
def personNodes (n : Nat) : List NodeEntry :=
  (List.range n).map fun i => ⟨i, "person", []⟩

/-- Out-degree of a node: number of outgoing edge entries. -/
def Graph.outDegree (G : Graph) (v : Nat) : Nat :=
  (G.edges.filter (fun e => e.src == v)).length

/-- One `add_relation_label` invocation, as data. -/
structure LabelCall where
  relationType : String
  roles : String × String
  roleplayers : Nat × Nat
  attrs : List String
deriving DecidableEq, Repr

def applyCall (G : Graph) (c : LabelCall) : Option Graph :=
  addRelationLabel G c.relationType c.roles c.roleplayers c.attrs

def applyCalls : Graph → List LabelCall → Option Graph
  | G, [] => some G
  | G, c :: cs => (applyCall G c).bind fun G2 => applyCalls G2 cs

/-- The attribute dictionary `cur` agrees in key structure with the
freshly base-labeled dictionary `base`, whose keys all come from `ks` and
all hold the base value `v`. -/
def AttrSim (ks : List String) (v : Nat)
    (base cur : List (String × Nat)) : Prop :=
  keysOf cur = keysOf base ∧ (keysOf base).Nodup
  ∧ (∀ k ∈ keysOf base, k ∈ ks) ∧ ∀ k ∈ ks, getAttr base k = some v

def NodeSim (ks : List String) (bnd cnd : NodeEntry) : Prop :=
  cnd.id = bnd.id ∧ cnd.type = bnd.type
  ∧ AttrSim ks (if bnd.type = "person" then 1 else 0) bnd.attrs cnd.attrs

def EdgeSim (ks : List String) (be ce : EdgeEntry) : Prop :=
  ce.src = be.src ∧ ce.dst = be.dst ∧ ce.type = be.type
  ∧ AttrSim ks 0 be.attrs ce.attrs

/-- `H` is a relabeling of the base-labeled graph `G0`: same structure,
same attribute keys, only label values may differ. -/
def GraphSim (ks : List String) (G0 H : Graph) : Prop :=
  List.Forall₂ (NodeSim ks) G0.nodes H.nodes
  ∧ List.Forall₂ (EdgeSim ks) G0.edges H.edges

/-- A concrete relabeled graph used to witness C5. -/
def c5Relabeled : Graph :=
  (applyCalls (addBaseLabels (generateGraph 2) ["input", "solution"])
    [⟨"parentship", ("parent", "child"), (0, 1), ["solution"]⟩]).getD ⟨[], []⟩

/-- The graph used to witness C6: scenario-0 base graph with the
siblingship between 1 and 2 marked as solution. -/
def c6Labeled : Graph :=
  (addRelationLabel (baseGraph 3) "siblingship" ("sibling", "sibling") (1, 2)
    ["solution"]).getD ⟨[], []⟩

/-- The scenario-0 graph. -/
def scenario0 : Graph := (createGraph 0).getD ⟨[], []⟩

@[simp] theorem keysOf_nil : keysOf [] = [] := rfl

@[simp] theorem keysOf_cons (k : String) (v : Nat) (m : List (String × Nat)) :
    keysOf ((k, v) :: m) = k :: keysOf m := rfl

theorem setAll_cons (m : List (String × Nat)) (k : String) (ks : List String)
    (v : Nat) : setAll m (k :: ks) v = setAll (setAttr m k v) ks v := rfl

theorem getAttr_setAttr_self (m : List (String × Nat)) (k : String) (v : Nat) :
    getAttr (setAttr m k v) k = some v := by
  induction m with
  | nil => simp [setAttr, getAttr]
  | cons p rest ih =>
      obtain ⟨k0, v0⟩ := p
      by_cases h : k0 = k <;> simp [setAttr, getAttr, h, ih]

theorem getAttr_setAttr_ne (m : List (String × Nat)) {k1 k : String} (v : Nat)
    (h : k1 ≠ k) : getAttr (setAttr m k v) k1 = getAttr m k1 := by
  have hne : ¬ (k = k1) := fun hh => h hh.symm
  induction m with
  | nil => simp [setAttr, getAttr, hne]
  | cons p rest ih =>
      obtain ⟨k0, v0⟩ := p
      by_cases h0 : k0 = k
      · have h1 : ¬ (k0 = k1) := fun hh => hne (h0 ▸ hh)
        simp [setAttr, getAttr, h0, h1, hne]
      · by_cases h1 : k0 = k1 <;> simp [setAttr, getAttr, h0, h1, h, hne, ih]

theorem keysOf_setAttr_mem (m : List (String × Nat)) (k : String) (v : Nat)
    (h : k ∈ keysOf m) : keysOf (setAttr m k v) = keysOf m := by
  induction m with
  | nil => simp at h
  | cons p rest ih =>
      obtain ⟨k0, v0⟩ := p
      by_cases h0 : k0 = k
      · simp [setAttr, h0]
      · rw [keysOf_cons] at h
        rcases List.mem_cons.mp h with h1 | h1
        · exact absurd h1.symm h0
        · simp [setAttr, h0, ih h1]

theorem keysOf_setAttr_not_mem (m : List (String × Nat)) (k : String) (v : Nat)
    (h : k ∉ keysOf m) : keysOf (setAttr m k v) = keysOf m ++ [k] := by
  induction m with
  | nil => simp [setAttr]
  | cons p rest ih =>
      obtain ⟨k0, v0⟩ := p
      rw [keysOf_cons] at h
      have h1 : ¬ (k0 = k) := fun hh => h (by simp [hh.symm])
      have h2 : k ∉ keysOf rest := fun hh => h (by simp [hh])
      simp [setAttr, h1, ih h2]

theorem mem_keysOf_of_getAttr {m : List (String × Nat)} {k : String} {v : Nat}
    (h : getAttr m k = some v) : k ∈ keysOf m := by
  induction m with
  | nil => simp [getAttr] at h
  | cons p rest ih =>
      obtain ⟨k0, v0⟩ := p
      by_cases h0 : k0 = k
      · simp [h0.symm]
      · simp [getAttr, h0] at h
        simp only [keysOf_cons, List.mem_cons]
        exact Or.inr (ih h)

theorem getAttr_eq_none_of_not_mem {m : List (String × Nat)} {k : String}
    (h : k ∉ keysOf m) : getAttr m k = none := by
  induction m with
  | nil => simp [getAttr]
  | cons p rest ih =>
      obtain ⟨k0, v0⟩ := p
      rw [keysOf_cons] at h
      have h1 : ¬ (k0 = k) := fun hh => h (by simp [hh.symm])
      have h2 : k ∉ keysOf rest := fun hh => h (by simp [hh])
      simp [getAttr, h1, ih h2]

theorem setAttr_eq_of_getAttr {m : List (String × Nat)} {k : String} {v : Nat}
    (h : getAttr m k = some v) : setAttr m k v = m := by
  induction m with
  | nil => simp [getAttr] at h
  | cons p rest ih =>
      obtain ⟨k0, v0⟩ := p
      by_cases h0 : k0 = k
      · simp [getAttr, h0] at h
        simp [setAttr, h0, h]
      · simp [getAttr, h0] at h
        simp [setAttr, h0, ih h]

theorem getAttr_setAll_not_mem (m : List (String × Nat)) {ks : List String}
    {k : String} (v : Nat) (h : k ∉ ks) :
    getAttr (setAll m ks v) k = getAttr m k := by
  induction ks generalizing m with
  | nil => simp [setAll]
  | cons k0 rest ih =>
      have h1 : ¬ (k = k0) := fun hh => h (by simp [hh])
      have h2 : k ∉ rest := fun hh => h (by simp [hh])
      rw [setAll_cons, ih (setAttr m k0 v) h2, getAttr_setAttr_ne m v h1]

theorem getAttr_setAll_mem (m : List (String × Nat)) {ks : List String}
    {k : String} (v : Nat) (h : k ∈ ks) :
    getAttr (setAll m ks v) k = some v := by
  induction ks generalizing m with
  | nil => simp at h
  | cons k0 rest ih =>
      by_cases hmem : k ∈ rest
      · rw [setAll_cons]; exact ih (setAttr m k0 v) hmem
      · have hk : k = k0 := by
          rcases List.mem_cons.mp h with h1 | h1
          · exact h1
          · exact absurd h1 hmem
        subst hk
        rw [setAll_cons, getAttr_setAll_not_mem (setAttr m k v) v hmem,
          getAttr_setAttr_self]

theorem setAll_id {m : List (String × Nat)} {ks : List String} {v : Nat}
    (h : ∀ k ∈ ks, getAttr m k = some v) : setAll m ks v = m := by
  induction ks generalizing m with
  | nil => rfl
  | cons k0 rest ih =>
      have hm : setAttr m k0 v = m :=
        setAttr_eq_of_getAttr (h k0 (by simp))
      rw [setAll_cons, hm]
      exact ih (fun k hk => h k (by simp [hk]))

theorem keysOf_setAll_of_sub (m : List (String × Nat)) {ks : List String}
    (v : Nat) (h : ∀ k ∈ ks, k ∈ keysOf m) :
    keysOf (setAll m ks v) = keysOf m := by
  induction ks generalizing m with
  | nil => rfl
  | cons k0 rest ih =>
      have hkeys : keysOf (setAttr m k0 v) = keysOf m :=
        keysOf_setAttr_mem m k0 v (h k0 (by simp))
      rw [setAll_cons, ih (setAttr m k0 v) (fun k hk => by
        rw [hkeys]; exact h k (by simp [hk])), hkeys]

theorem keysOf_setAll_nodup {m : List (String × Nat)} (ks : List String)
    (v : Nat) (h : (keysOf m).Nodup) : (keysOf (setAll m ks v)).Nodup := by
  induction ks generalizing m with
  | nil => exact h
  | cons k0 rest ih =>
      rw [setAll_cons]
      by_cases hmem : k0 ∈ keysOf m
      · exact ih (by rw [keysOf_setAttr_mem m k0 v hmem]; exact h)
      · refine ih ?_
        rw [keysOf_setAttr_not_mem m k0 v hmem]
        simp [List.nodup_append, h, hmem]

theorem mem_keysOf_setAll {m : List (String × Nat)} {ks : List String}
    {v : Nat} {k : String} (h : k ∈ keysOf (setAll m ks v)) :
    k ∈ keysOf m ∨ k ∈ ks := by
  induction ks generalizing m with
  | nil => exact Or.inl h
  | cons k0 rest ih =>
      rw [setAll_cons] at h
      rcases ih h with h1 | h1
      · by_cases hmem : k0 ∈ keysOf m
        · rw [keysOf_setAttr_mem m k0 v hmem] at h1
          exact Or.inl h1
        · rw [keysOf_setAttr_not_mem m k0 v hmem] at h1
          rcases List.mem_append.mp h1 with h2 | h2
          · exact Or.inl h2
          · simp at h2
            exact Or.inr (by simp [h2])
      · exact Or.inr (by simp [h1])

/-- Extensionality for attribute dictionaries with duplicate-free, equal
key lists: pointwise equal lookups force list equality. -/
theorem attr_ext {m m0 : List (String × Nat)}
    (hkeys : keysOf m = keysOf m0) (hnd : (keysOf m).Nodup)
    (hget : ∀ k, getAttr m k = getAttr m0 k) : m = m0 := by
  induction m generalizing m0 with
  | nil =>
      cases m0 with
      | nil => rfl
      | cons q rest0 =>
          obtain ⟨k0, v0⟩ := q
          simp at hkeys
  | cons p rest ih =>
      obtain ⟨k, v⟩ := p
      cases m0 with
      | nil => simp at hkeys
      | cons q rest0 =>
          obtain ⟨k0, v0⟩ := q
          simp only [keysOf_cons, List.cons.injEq] at hkeys
          obtain ⟨hk, htl⟩ := hkeys
          subst hk
          have hv : v = v0 := by
            have h1 := hget k
            simpa [getAttr] using h1
          subst hv
          rw [keysOf_cons] at hnd
          have hnd1 := List.nodup_cons.mp hnd
          refine congrArg _ (ih htl hnd1.2 (fun k1 => ?_))
          by_cases hk1 : k1 = k
          · subst hk1
            rw [getAttr_eq_none_of_not_mem hnd1.1,
              getAttr_eq_none_of_not_mem (by rw [← htl]; exact hnd1.1)]
          · have h2 : ¬ (k = k1) := fun hh => hk1 hh.symm
            have h3 := hget k1
            simpa [getAttr, h2] using h3

/-- Writing the same value under the same names is insensitive to prior
values of those names, as long as the key structure agrees and every
other key holds the same value on both sides. -/
theorem setAll_congr {m m0 : List (String × Nat)} {ks : List String} {v : Nat}
    (hkeys : keysOf m = keysOf m0) (hnd : (keysOf m).Nodup)
    (hout : ∀ k, k ∉ ks → getAttr m k = getAttr m0 k) :
    setAll m ks v = setAll m0 ks v := by
  induction ks generalizing m m0 with
  | nil =>
      exact attr_ext hkeys hnd (fun k => hout k (by simp))
  | cons k0 rest ih =>
      rw [setAll_cons, setAll_cons]
      by_cases hmem : k0 ∈ keysOf m
      · refine ih ?_ ?_ ?_
        · rw [keysOf_setAttr_mem m k0 v hmem,
            keysOf_setAttr_mem m0 k0 v (hkeys ▸ hmem), hkeys]
        · rw [keysOf_setAttr_mem m k0 v hmem]; exact hnd
        · intro k hk
          by_cases hkk : k = k0
          · subst hkk
            rw [getAttr_setAttr_self, getAttr_setAttr_self]
          · rw [getAttr_setAttr_ne m v hkk, getAttr_setAttr_ne m0 v hkk]
            exact hout k (by simp [hkk, hk])
      · refine ih ?_ ?_ ?_
        · rw [keysOf_setAttr_not_mem m k0 v hmem,
            keysOf_setAttr_not_mem m0 k0 v (hkeys ▸ hmem), hkeys]
        · rw [keysOf_setAttr_not_mem m k0 v hmem]
          simp [List.nodup_append, hnd, hmem]
        · intro k hk
          by_cases hkk : k = k0
          · subst hkk
            rw [getAttr_setAttr_self, getAttr_setAttr_self]
          · rw [getAttr_setAttr_ne m v hkk, getAttr_setAttr_ne m0 v hkk]
            exact hout k (by simp [hkk, hk])

theorem mem_permPairs {n a b : Nat} :
    (a, b) ∈ permPairs n ↔ a < n ∧ b < n ∧ b ≠ a := by
  simp only [permPairs, List.mem_flatMap, List.mem_map, List.mem_filter,
    List.mem_range]
  constructor
  · rintro ⟨a0, ha0, b0, ⟨hb0, hne⟩, heq⟩
    obtain ⟨rfl, rfl⟩ := Prod.mk.injEq .. ▸ heq
    exact ⟨ha0, hb0, by simpa using hne⟩
  · rintro ⟨ha, hb, hne⟩
    exact ⟨a, ha, b, ⟨hb, by simpa using hne⟩, rfl⟩

theorem mem_combPairs {n a b : Nat} :
    (a, b) ∈ combPairs n ↔ a < n ∧ b < n ∧ a < b := by
  simp only [combPairs, List.mem_flatMap, List.mem_map, List.mem_filter,
    List.mem_range]
  constructor
  · rintro ⟨a0, ha0, b0, ⟨hb0, hlt⟩, heq⟩
    obtain ⟨rfl, rfl⟩ := Prod.mk.injEq .. ▸ heq
    exact ⟨ha0, hb0, by simpa using hlt⟩
  · rintro ⟨ha, hb, hlt⟩
    exact ⟨a, ha, b, ⟨hb, by simpa using hlt⟩, rfl⟩

theorem permPairs_nodup (n : Nat) : (permPairs n).Nodup := by
  rw [permPairs, List.nodup_flatMap]
  refine ⟨fun a _ => ?_, ?_⟩
  · exact (((List.nodup_range n).filter _).map
      (fun x y h => by simpa using h))
  · refine ((List.nodup_range n).pairwise_of_forall_ne fun a _ a' _ hne => ?_)
    intro p hp hp'
    simp only [List.mem_map, List.mem_filter] at hp hp'
    obtain ⟨b, _, rfl⟩ := hp
    obtain ⟨b', _, heq⟩ := hp'
    exact hne (congrArg Prod.fst heq.symm)

theorem combPairs_nodup (n : Nat) : (combPairs n).Nodup := by
  rw [combPairs, List.nodup_flatMap]
  refine ⟨fun a _ => ?_, ?_⟩
  · exact (((List.nodup_range n).filter _).map
      (fun x y h => by simpa using h))
  · refine ((List.nodup_range n).pairwise_of_forall_ne fun a _ a' _ hne => ?_)
    intro p hp hp'
    simp only [List.mem_map, List.mem_filter] at hp hp'
    obtain ⟨b, _, rfl⟩ := hp
    obtain ⟨b', _, heq⟩ := hp'
    exact hne (congrArg Prod.fst heq.symm)

theorem length_filter_ne_general (n a : Nat) :
    ((List.range n).filter (fun b => b ≠ a)).length
      = n - (if a < n then 1 else 0) := by
  induction n with
  | zero => simp
  | succ n ih =>
      have hfil : (List.filter (fun b => b ≠ a) [n]).length
          = if n = a then 0 else 1 := by
        by_cases h : n = a <;> simp [List.filter_cons, h]
      rw [List.range_succ, List.filter_append, List.length_append, ih, hfil]
      split_ifs <;> omega

theorem length_filter_ne (n a : Nat) (ha : a < n) :
    ((List.range n).filter (fun b => b ≠ a)).length = n - 1 := by
  rw [length_filter_ne_general, if_pos ha]

theorem length_permPairs (n : Nat) : (permPairs n).length = n * (n - 1) := by
  rw [permPairs, List.length_flatMap]
  have h1 : (List.map (List.length ∘ fun a =>
      ((List.range n).filter (fun b => b ≠ a)).map fun b => (a, b))
        (List.range n))
      = List.map (Function.const Nat (n - 1)) (List.range n) := by
    refine List.map_congr_left fun a ha => ?_
    simp only [Function.comp_apply, List.length_map, Function.const_apply]
    exact length_filter_ne n a (List.mem_range.mp ha)
  rw [h1, List.map_const, List.sum_replicate, List.length_range, smul_eq_mul]

theorem length_filter_lt (n a : Nat) :
    ((List.range n).filter (fun b => a < b)).length = n - (a + 1) := by
  induction n with
  | zero => simp
  | succ n ih =>
      have hfil : (List.filter (fun b => a < b) [n]).length
          = if a < n then 1 else 0 := by
        by_cases h : a < n <;> simp [List.filter_cons, h]
      rw [List.range_succ, List.filter_append, List.length_append, ih, hfil]
      split_ifs <;> omega

theorem length_combPairs_twice (n : Nat) :
    (combPairs n).length * 2 = n * (n - 1) := by
  induction n with
  | zero => simp [combPairs]
  | succ n ih =>
      have hlen : ∀ m : Nat, (combPairs m).length
          = ((List.range m).map (fun a => m - (a + 1))).sum := by
        intro m
        rw [combPairs, List.length_flatMap]
        refine congrArg List.sum (List.map_congr_left fun a _ => ?_)
        simp only [Function.comp_apply, List.length_map]
        exact length_filter_lt m a
      have hsum : ((List.range (n + 1)).map (fun a => n + 1 - (a + 1))).sum
          = ((List.range n).map (fun a => n - (a + 1))).sum + n := by
        rw [List.range_succ, List.map_append]
        simp only [List.sum_append, List.map_cons, List.map_nil,
          List.sum_cons, List.sum_nil]
        have hpt : (List.range n).map (fun a => n + 1 - (a + 1))
            = (List.range n).map (fun a => (n - (a + 1)) + 1) := by
          refine List.map_congr_left fun a ha => ?_
          have := List.mem_range.mp ha
          omega
        rw [hpt]
        have hplus : ∀ l : List Nat, (l.map (· + 1)).sum = l.sum + l.length := by
          intro l
          induction l with
          | nil => simp
          | cons x xs ihl => simp [ihl]; omega
        have hmap : (List.range n).map (fun a => (n - (a + 1)) + 1)
            = ((List.range n).map (fun a => n - (a + 1))).map (· + 1) := by
          rw [List.map_map]
          rfl
        rw [hmap, hplus, List.length_map, List.length_range]
        omega
      rw [hlen (n + 1), hsum, ← hlen n]
      have : n + 1 - 1 = n := by omega
      rw [this]
      rw [Nat.add_mul, ih]
      cases n with
      | zero => simp
      | succ m =>
          have : m + 1 - 1 = m := by omega
          rw [this]
          ring

theorem length_combPairs (n : Nat) : (combPairs n).length = n * (n - 1) / 2 := by
  have h := length_combPairs_twice n
  omega

/-! ## Structure of `relNodes` and `relEdges` -/

theorem find?_cons_pos {α : Type} (p : α → Bool) (a : α) (l : List α)
    (h : p a = true) : (a :: l).find? p = some a :=
  List.find?_cons_of_pos l h

theorem find?_cons_neg {α : Type} (p : α → Bool) (a : α) (l : List α)
    (h : p a = false) : (a :: l).find? p = l.find? p :=
  List.find?_cons_of_neg l (by simp [h])

theorem filter_cons_pos {α : Type} (p : α → Bool) (a : α) (l : List α)
    (h : p a = true) : (a :: l).filter p = a :: l.filter p :=
  List.filter_cons_of_pos h

theorem filter_cons_neg {α : Type} (p : α → Bool) (a : α) (l : List α)
    (h : p a = false) : (a :: l).filter p = l.filter p :=
  List.filter_cons_of_neg (by simp [h])

theorem relNodes_length (t : String) (s : Nat) (ps : List (Nat × Nat)) :
    (relNodes t s ps).length = ps.length := by
  induction ps generalizing s with
  | nil => rfl
  | cons p rest ih => simp [relNodes, ih]

theorem mem_relNodes {t : String} {s : Nat} {ps : List (Nat × Nat)}
    {nd : NodeEntry} :
    nd ∈ relNodes t s ps ↔ ∃ i < ps.length, nd = ⟨s + i, t, []⟩ := by
  induction ps generalizing s with
  | nil => simp [relNodes]
  | cons p rest ih =>
      simp only [relNodes, List.mem_cons, ih]
      constructor
      · rintro (rfl | ⟨i, hi, rfl⟩)
        · exact ⟨0, by simp, by simp⟩
        · refine ⟨i + 1, Nat.succ_lt_succ hi, ?_⟩
          have h : s + (i + 1) = s + 1 + i := by omega
          rw [h]
      · rintro ⟨i, hi, rfl⟩
        cases i with
        | zero => exact Or.inl (by simp)
        | succ j =>
            refine Or.inr ⟨j, Nat.lt_of_succ_lt_succ hi, ?_⟩
            have h : s + (j + 1) = s + 1 + j := by omega
            rw [h]

theorem relNodes_find?_eq (t : String) (s : Nat) (ps : List (Nat × Nat))
    {i : Nat} (hi : i < ps.length) :
    (relNodes t s ps).find? (fun nd => nd.id == s + i) = some ⟨s + i, t, []⟩ := by
  induction ps generalizing s i with
  | nil => simp at hi
  | cons p rest ih =>
      cases i with
      | zero =>
          simp only [relNodes]
          rw [find?_cons_pos (fun nd : NodeEntry => nd.id == s + 0) (⟨s, t, []⟩ : NodeEntry) _ (by simp)]
          rfl
      | succ j =>
          have hlt : j < rest.length := Nat.lt_of_succ_lt_succ hi
          have hstep : s + (j + 1) = s + 1 + j := by omega
          simp only [relNodes]
          rw [find?_cons_neg (fun nd : NodeEntry => nd.id == s + (j + 1)) (⟨s, t, []⟩ : NodeEntry) _
            (by simp), hstep, ih (s + 1) hlt]

theorem relNodes_find?_none (t : String) (s : Nat) (ps : List (Nat × Nat))
    {v : Nat} (hv : v < s ∨ s + ps.length ≤ v) :
    (relNodes t s ps).find? (fun nd => nd.id == v) = none := by
  induction ps generalizing s with
  | nil => rfl
  | cons p rest ih =>
      simp only [List.length_cons] at hv
      simp only [relNodes]
      rw [find?_cons_neg (fun nd : NodeEntry => nd.id == v) (⟨s, t, []⟩ : NodeEntry) _
        (by simp only [beq_eq_false_iff_ne, ne_eq]; omega)]
      exact ih (s + 1) (by omega)

theorem relEdges_src_bounds {r1 r2 : String} {s : Nat} {ps : List (Nat × Nat)}
    {e : EdgeEntry} (he : e ∈ relEdges r1 r2 s ps) :
    s ≤ e.src ∧ e.src < s + ps.length := by
  induction ps generalizing s with
  | nil => simp [relEdges] at he
  | cons p rest ih =>
      obtain ⟨a, b⟩ := p
      simp only [relEdges, List.mem_cons] at he
      rcases he with rfl | rfl | he
      · simp
      · simp
      · have := ih he
        simp only [List.length_cons]
        omega

theorem relEdges_filter_src (r1 r2 : String) (s : Nat) (ps : List (Nat × Nat))
    {i : Nat} (hi : i < ps.length) :
    (relEdges r1 r2 s ps).filter (fun e => e.src == s + i)
      = [⟨s + i, (ps.get ⟨i, hi⟩).1, r1, []⟩,
         ⟨s + i, (ps.get ⟨i, hi⟩).2, r2, []⟩] := by
  induction ps generalizing s i with
  | nil => simp at hi
  | cons p rest ih =>
      obtain ⟨a, b⟩ := p
      cases i with
      | zero =>
          have hnil : (relEdges r1 r2 (s + 1) rest).filter
              (fun e => e.src == s + 0) = [] := by
            refine List.filter_eq_nil_iff.mpr fun e he => ?_
            have hb := relEdges_src_bounds he
            simp only [beq_iff_eq]
            omega
          simp only [relEdges]
          rw [filter_cons_pos (fun e : EdgeEntry => e.src == s + 0) (⟨s, a, r1, []⟩ : EdgeEntry) _ (by simp),
            filter_cons_pos (fun e : EdgeEntry => e.src == s + 0) (⟨s, b, r2, []⟩ : EdgeEntry) _ (by simp),
            hnil]
          rfl
      | succ j =>
          have hlt : j < rest.length := Nat.lt_of_succ_lt_succ hi
          have hstep : s + (j + 1) = s + 1 + j := by omega
          simp only [relEdges]
          rw [filter_cons_neg (fun e : EdgeEntry => e.src == s + (j + 1)) (⟨s, a, r1, []⟩ : EdgeEntry) _
              (by simp only [beq_eq_false_iff_ne, ne_eq]; omega),
            filter_cons_neg (fun e : EdgeEntry => e.src == s + (j + 1)) (⟨s, b, r2, []⟩ : EdgeEntry) _
              (by simp only [beq_eq_false_iff_ne, ne_eq]; omega),
            hstep, ih (s + 1) hlt]
          rfl

theorem relEdges_filter_src_none (r1 r2 : String) (s : Nat)
    (ps : List (Nat × Nat)) {v : Nat} (hv : v < s ∨ s + ps.length ≤ v) :
    (relEdges r1 r2 s ps).filter (fun e => e.src == v) = [] := by
  refine List.filter_eq_nil_iff.mpr fun e he => ?_
  have := relEdges_src_bounds he
  simp
  omega

theorem generateGraph_nodes (n : Nat) :
    (generateGraph n).nodes
      = personNodes n
        ++ relNodes "parentship" n (permPairs n)
        ++ relNodes "siblingship" (n + (permPairs n).length) (combPairs n) := rfl

theorem generateGraph_edges (n : Nat) :
    (generateGraph n).edges
      = relEdges "parent" "child" n (permPairs n)
        ++ relEdges "sibling" "sibling" (n + (permPairs n).length) (combPairs n) := rfl

theorem personNodes_find?_ge {n v : Nat} (hv : n ≤ v) :
    (personNodes n).find? (fun nd => nd.id == v) = none := by
  refine List.find?_eq_none.mpr fun nd hnd => ?_
  simp only [personNodes, List.mem_map, List.mem_range] at hnd
  obtain ⟨i, hi, rfl⟩ := hnd
  simp only [beq_iff_eq]
  omega

theorem personNodes_find?_lt {n v : Nat} (hv : v < n) :
    (personNodes n).find? (fun nd => nd.id == v) = some ⟨v, "person", []⟩ := by
  induction n with
  | zero => omega
  | succ n ih =>
      have hsplit : personNodes (n + 1)
          = personNodes n ++ [⟨n, "person", []⟩] := by
        simp [personNodes, List.range_succ]
      rw [hsplit, List.find?_append]
      by_cases h : v < n
      · rw [ih h]; rfl
      · have hv2 : v = n := by omega
        subst hv2
        rw [personNodes_find?_ge (le_refl v), Option.none_or,
          find?_cons_pos (fun nd : NodeEntry => nd.id == v)
            (⟨v, "person", []⟩ : NodeEntry) _ (by simp)]

theorem generateGraph_findNode_person {n v : Nat} (hv : v < n) :
    (generateGraph n).findNode? v = some ⟨v, "person", []⟩ := by
  rw [Graph.findNode?, generateGraph_nodes, List.append_assoc, List.find?_append,
    personNodes_find?_lt hv]
  rfl

theorem generateGraph_findNode_parentship {n i : Nat}
    (hi : i < (permPairs n).length) :
    (generateGraph n).findNode? (n + i) = some ⟨n + i, "parentship", []⟩ := by
  rw [Graph.findNode?, generateGraph_nodes, List.append_assoc, List.find?_append,
    personNodes_find?_ge (by omega), Option.none_or, List.find?_append,
    relNodes_find?_eq "parentship" n (permPairs n) hi]
  rfl

theorem generateGraph_findNode_siblingship {n j : Nat}
    (hj : j < (combPairs n).length) :
    (generateGraph n).findNode? (n + (permPairs n).length + j)
      = some ⟨n + (permPairs n).length + j, "siblingship", []⟩ := by
  rw [Graph.findNode?, generateGraph_nodes, List.append_assoc, List.find?_append,
    personNodes_find?_ge (by omega), Option.none_or, List.find?_append,
    relNodes_find?_none "parentship" n (permPairs n) (Or.inr (by omega)),
    Option.none_or]
  have h : n + (permPairs n).length + j = (n + (permPairs n).length) + j := rfl
  rw [h, relNodes_find?_eq "siblingship" (n + (permPairs n).length) (combPairs n) hj]

theorem generateGraph_findNode_none {n v : Nat}
    (hv : n + (permPairs n).length + (combPairs n).length ≤ v) :
    (generateGraph n).findNode? v = none := by
  rw [Graph.findNode?, generateGraph_nodes, List.append_assoc, List.find?_append,
    personNodes_find?_ge (by omega), Option.none_or, List.find?_append,
    relNodes_find?_none "parentship" n (permPairs n) (Or.inr (by omega)),
    Option.none_or,
    relNodes_find?_none "siblingship" (n + (permPairs n).length) (combPairs n)
      (Or.inr (by omega))]

/-- Every node of `generateGraph n` is a person, a parentship relation or a
siblingship relation, with ids laid out in this order. -/
theorem generateGraph_findNode_cases {n v : Nat} {nd : NodeEntry}
    (h : (generateGraph n).findNode? v = some nd) :
    (v < n ∧ nd = ⟨v, "person", []⟩)
    ∨ (∃ i, ∃ _ : i < (permPairs n).length, v = n + i
        ∧ nd = ⟨v, "parentship", []⟩)
    ∨ (∃ j, ∃ _ : j < (combPairs n).length,
        v = n + (permPairs n).length + j ∧ nd = ⟨v, "siblingship", []⟩) := by
  by_cases h1 : v < n
  · rw [generateGraph_findNode_person h1] at h
    exact Or.inl ⟨h1, by injection h with h2; exact h2.symm⟩
  · by_cases h2 : v < n + (permPairs n).length
    · have hi : v - n < (permPairs n).length := by omega
      have hv : v = n + (v - n) := by omega
      rw [hv, generateGraph_findNode_parentship hi] at h
      refine Or.inr (Or.inl ⟨v - n, hi, by omega, ?_⟩)
      injection h with h3
      rw [← h3, ← hv]
    · by_cases h3 : v < n + (permPairs n).length + (combPairs n).length
      · have hj : v - (n + (permPairs n).length) < (combPairs n).length := by
          omega
        have hv : v = n + (permPairs n).length
            + (v - (n + (permPairs n).length)) := by omega
        rw [hv, generateGraph_findNode_siblingship hj] at h
        refine Or.inr (Or.inr ⟨v - (n + (permPairs n).length), hj, by omega, ?_⟩)
        injection h with h4
        rw [← h4, ← hv]
      · rw [generateGraph_findNode_none (by omega)] at h
        exact absurd h (by simp)

theorem generateGraph_filter_src_par {n i : Nat}
    (hi : i < (permPairs n).length) :
    (generateGraph n).edges.filter (fun e => e.src == n + i)
      = [⟨n + i, ((permPairs n).get ⟨i, hi⟩).1, "parent", []⟩,
         ⟨n + i, ((permPairs n).get ⟨i, hi⟩).2, "child", []⟩] := by
  rw [generateGraph_edges, List.filter_append,
    relEdges_filter_src "parent" "child" n (permPairs n) hi,
    relEdges_filter_src_none "sibling" "sibling" (n + (permPairs n).length)
      (combPairs n) (Or.inl (by omega))]
  rfl

theorem generateGraph_filter_src_sib {n j : Nat}
    (hj : j < (combPairs n).length) :
    (generateGraph n).edges.filter
        (fun e => e.src == n + (permPairs n).length + j)
      = [⟨n + (permPairs n).length + j, ((combPairs n).get ⟨j, hj⟩).1,
          "sibling", []⟩,
         ⟨n + (permPairs n).length + j, ((combPairs n).get ⟨j, hj⟩).2,
          "sibling", []⟩] := by
  rw [generateGraph_edges, List.filter_append,
    relEdges_filter_src_none "parent" "child" n (permPairs n)
      (Or.inr (by omega))]
  have h : n + (permPairs n).length + j = (n + (permPairs n).length) + j := rfl
  rw [h, relEdges_filter_src "sibling" "sibling" (n + (permPairs n).length)
    (combPairs n) hj]
  rfl

/-- Splitting a conjunctive scan into a filter followed by a scan. -/
theorem find?_and_filter {α : Type} (l : List α) (p q : α → Bool) :
    l.find? (fun x => p x && q x) = (l.filter p).find? q := by
  induction l with
  | nil => rfl
  | cons x xs ih =>
      by_cases hp : p x = true
      · by_cases hq : q x = true
        · rw [List.find?_cons_of_pos _ (by simp [hp, hq]),
            List.filter_cons_of_pos hp, List.find?_cons_of_pos _ hq]
        · rw [List.find?_cons_of_neg _ (by simp [hp, hq]),
            List.filter_cons_of_pos hp, List.find?_cons_of_neg _ hq, ih]
      · rw [List.find?_cons_of_neg _ (by simp [hp]),
          List.filter_cons_of_neg hp, ih]

theorem findEdge?_eq_filter (G : Graph) (u v : Nat) :
    G.findEdge? u v
      = (G.edges.filter (fun e => e.src == u)).find? (fun e => e.dst == v) :=
  find?_and_filter G.edges _ _

/-- All edges out of the parentship relation node `n + i`, looked up by
target. -/
theorem generateGraph_findEdge_par {n i : Nat} (hi : i < (permPairs n).length)
    {a b : Nat} (hget : (permPairs n).get ⟨i, hi⟩ = (a, b)) (x : Nat) :
    (generateGraph n).findEdge? (n + i) x
      = if a = x then some ⟨n + i, a, "parent", []⟩
        else if b = x then some ⟨n + i, b, "child", []⟩
        else none := by
  rw [findEdge?_eq_filter, generateGraph_filter_src_par hi, hget]
  dsimp only
  by_cases h1 : a = x
  · rw [find?_cons_pos (fun e : EdgeEntry => e.dst == x)
      (⟨n + i, a, "parent", []⟩ : EdgeEntry) _ (by simp [h1]), if_pos h1]
  · rw [find?_cons_neg (fun e : EdgeEntry => e.dst == x)
      (⟨n + i, a, "parent", []⟩ : EdgeEntry) _ (by simp [h1])]
    by_cases h2 : b = x
    · rw [find?_cons_pos (fun e : EdgeEntry => e.dst == x)
        (⟨n + i, b, "child", []⟩ : EdgeEntry) _ (by simp [h2]),
        if_neg h1, if_pos h2]
    · rw [find?_cons_neg (fun e : EdgeEntry => e.dst == x)
        (⟨n + i, b, "child", []⟩ : EdgeEntry) _ (by simp [h2]),
        if_neg h1, if_neg h2]
      rfl

/-- All edges out of the siblingship relation node, looked up by target. -/
theorem generateGraph_findEdge_sib {n j : Nat} (hj : j < (combPairs n).length)
    {a b : Nat} (hget : (combPairs n).get ⟨j, hj⟩ = (a, b)) (x : Nat) :
    (generateGraph n).findEdge? (n + (permPairs n).length + j) x
      = if a = x then some ⟨n + (permPairs n).length + j, a, "sibling", []⟩
        else if b = x then some ⟨n + (permPairs n).length + j, b, "sibling", []⟩
        else none := by
  rw [findEdge?_eq_filter, generateGraph_filter_src_sib hj, hget]
  dsimp only
  by_cases h1 : a = x
  · rw [find?_cons_pos (fun e : EdgeEntry => e.dst == x)
      (⟨n + (permPairs n).length + j, a, "sibling", []⟩ : EdgeEntry) _
      (by simp [h1]), if_pos h1]
  · rw [find?_cons_neg (fun e : EdgeEntry => e.dst == x)
      (⟨n + (permPairs n).length + j, a, "sibling", []⟩ : EdgeEntry) _
      (by simp [h1])]
    by_cases h2 : b = x
    · rw [find?_cons_pos (fun e : EdgeEntry => e.dst == x)
        (⟨n + (permPairs n).length + j, b, "sibling", []⟩ : EdgeEntry) _
        (by simp [h2]), if_neg h1, if_pos h2]
    · rw [find?_cons_neg (fun e : EdgeEntry => e.dst == x)
        (⟨n + (permPairs n).length + j, b, "sibling", []⟩ : EdgeEntry) _
        (by simp [h2]), if_neg h1, if_neg h2]
      rfl

theorem mem_predecessors {G : Graph} {v r : Nat} :
    r ∈ G.predecessors v ↔ ∃ e ∈ G.edges, e.dst = v ∧ e.src = r := by
  simp only [Graph.predecessors, List.mem_map, List.mem_filter, beq_iff_eq]
  constructor
  · rintro ⟨e, ⟨he, hdst⟩, hsrc⟩
    exact ⟨e, he, hdst, hsrc⟩
  · rintro ⟨e, he, hdst, hsrc⟩
    exact ⟨e, ⟨he, hdst⟩, hsrc⟩

theorem par_edges_mem {n i : Nat} (hi : i < (permPairs n).length)
    {a b : Nat} (hget : (permPairs n).get ⟨i, hi⟩ = (a, b)) :
    (⟨n + i, a, "parent", []⟩ : EdgeEntry) ∈ (generateGraph n).edges
    ∧ (⟨n + i, b, "child", []⟩ : EdgeEntry) ∈ (generateGraph n).edges := by
  have h := generateGraph_filter_src_par hi
  rw [hget] at h
  dsimp only at h
  constructor
  · exact List.mem_of_mem_filter (h ▸ (by simp :
      (⟨n + i, a, "parent", []⟩ : EdgeEntry)
        ∈ [(⟨n + i, a, "parent", []⟩ : EdgeEntry),
           (⟨n + i, b, "child", []⟩ : EdgeEntry)]))
  · exact List.mem_of_mem_filter (h ▸ (by simp :
      (⟨n + i, b, "child", []⟩ : EdgeEntry)
        ∈ [(⟨n + i, a, "parent", []⟩ : EdgeEntry),
           (⟨n + i, b, "child", []⟩ : EdgeEntry)]))

theorem sib_edges_mem {n j : Nat} (hj : j < (combPairs n).length)
    {a b : Nat} (hget : (combPairs n).get ⟨j, hj⟩ = (a, b)) :
    (⟨n + (permPairs n).length + j, a, "sibling", []⟩ : EdgeEntry)
      ∈ (generateGraph n).edges
    ∧ (⟨n + (permPairs n).length + j, b, "sibling", []⟩ : EdgeEntry)
      ∈ (generateGraph n).edges := by
  have h := generateGraph_filter_src_sib hj
  rw [hget] at h
  dsimp only at h
  constructor
  · exact List.mem_of_mem_filter (h ▸ (by simp :
      (⟨n + (permPairs n).length + j, a, "sibling", []⟩ : EdgeEntry)
        ∈ [(⟨n + (permPairs n).length + j, a, "sibling", []⟩ : EdgeEntry),
           (⟨n + (permPairs n).length + j, b, "sibling", []⟩ : EdgeEntry)]))
  · exact List.mem_of_mem_filter (h ▸ (by simp :
      (⟨n + (permPairs n).length + j, b, "sibling", []⟩ : EdgeEntry)
        ∈ [(⟨n + (permPairs n).length + j, a, "sibling", []⟩ : EdgeEntry),
           (⟨n + (permPairs n).length + j, b, "sibling", []⟩ : EdgeEntry)]))

/-- Only the generated parentship node for the ordered pair `(a, b)` can
look like a parentship between `a` (parent) and `b` (child). -/
theorem parentship_unique {n w a b : Nat}
    (ht : (generateGraph n).nodeType? w = some "parentship")
    (he1 : (generateGraph n).edgeType? w a = some "parent")
    (he2 : (generateGraph n).edgeType? w b = some "child") :
    ∃ i, ∃ hi : i < (permPairs n).length,
      w = n + i ∧ (permPairs n).get ⟨i, hi⟩ = (a, b) := by
  obtain ⟨nd, hnd, hndt⟩ := Option.map_eq_some'.mp ht
  rcases generateGraph_findNode_cases hnd with ⟨hvn, hnde⟩ | ⟨i, hi, hv, hnde⟩
    | ⟨j, hj, hv, hnde⟩
  · rw [hnde] at hndt
    simp at hndt
  · subst hv
    have hpq : (permPairs n).get ⟨i, hi⟩
        = (((permPairs n).get ⟨i, hi⟩).1, ((permPairs n).get ⟨i, hi⟩).2) := rfl
    rw [Graph.edgeType?, generateGraph_findEdge_par hi hpq a] at he1
    rw [Graph.edgeType?, generateGraph_findEdge_par hi hpq b] at he2
    have ha : ((permPairs n).get ⟨i, hi⟩).1 = a := by
      by_cases h1 : ((permPairs n).get ⟨i, hi⟩).1 = a
      · exact h1
      · rw [if_neg h1] at he1
        by_cases h2 : ((permPairs n).get ⟨i, hi⟩).2 = a
        · rw [if_pos h2] at he1
          simp at he1
        · rw [if_neg h2] at he1
          simp at he1
    have hb : ((permPairs n).get ⟨i, hi⟩).2 = b := by
      by_cases h1 : ((permPairs n).get ⟨i, hi⟩).1 = b
      · rw [if_pos h1] at he2
        simp at he2
      · rw [if_neg h1] at he2
        by_cases h2 : ((permPairs n).get ⟨i, hi⟩).2 = b
        · exact h2
        · rw [if_neg h2] at he2
          simp at he2
    exact ⟨i, hi, rfl, by rw [hpq, ha, hb]⟩
  · rw [hnde] at hndt
    simp at hndt

/-- Only a generated siblingship node over `{a, b}` can look like a
siblingship between `a` and `b`. -/
theorem siblingship_unique {n w a b : Nat}
    (ht : (generateGraph n).nodeType? w = some "siblingship")
    (he1 : (generateGraph n).edgeType? w a = some "sibling")
    (he2 : (generateGraph n).edgeType? w b = some "sibling") :
    ∃ j, ∃ hj : j < (combPairs n).length,
      w = n + (permPairs n).length + j
      ∧ (((combPairs n).get ⟨j, hj⟩).1 = a ∨ ((combPairs n).get ⟨j, hj⟩).2 = a)
      ∧ (((combPairs n).get ⟨j, hj⟩).1 = b ∨ ((combPairs n).get ⟨j, hj⟩).2 = b) := by
  obtain ⟨nd, hnd, hndt⟩ := Option.map_eq_some'.mp ht
  rcases generateGraph_findNode_cases hnd with ⟨hvn, hnde⟩ | ⟨i, hi, hv, hnde⟩
    | ⟨j, hj, hv, hnde⟩
  · rw [hnde] at hndt
    simp at hndt
  · rw [hnde] at hndt
    simp at hndt
  · subst hv
    have hpq : (combPairs n).get ⟨j, hj⟩
        = (((combPairs n).get ⟨j, hj⟩).1, ((combPairs n).get ⟨j, hj⟩).2) := rfl
    rw [Graph.edgeType?, generateGraph_findEdge_sib hj hpq a] at he1
    rw [Graph.edgeType?, generateGraph_findEdge_sib hj hpq b] at he2
    refine ⟨j, hj, rfl, ?_, ?_⟩
    · by_cases h1 : ((combPairs n).get ⟨j, hj⟩).1 = a
      · exact Or.inl h1
      · by_cases h2 : ((combPairs n).get ⟨j, hj⟩).2 = a
        · exact Or.inr h2
        · rw [if_neg h1, if_neg h2] at he1
          simp at he1
    · by_cases h1 : ((combPairs n).get ⟨j, hj⟩).1 = b
      · exact Or.inl h1
      · by_cases h2 : ((combPairs n).get ⟨j, hj⟩).2 = b
        · exact Or.inr h2
        · rw [if_neg h1, if_neg h2] at he2
          simp at he2

/-- Observations at the generated parentship node for pair `(a, b)`. -/
theorem parentship_obs {n i : Nat} (hi : i < (permPairs n).length)
    {a b : Nat} (hget : (permPairs n).get ⟨i, hi⟩ = (a, b)) :
    (generateGraph n).nodeType? (n + i) = some "parentship"
    ∧ (generateGraph n).edgeType? (n + i) a = some "parent"
    ∧ (generateGraph n).edgeType? (n + i) b = some "child" := by
  have hmem : (a, b) ∈ permPairs n := hget ▸ List.get_mem _ i hi
  have hne : b ≠ a := (mem_permPairs.mp hmem).2.2
  refine ⟨?_, ?_, ?_⟩
  · rw [Graph.nodeType?, generateGraph_findNode_parentship hi]
    rfl
  · rw [Graph.edgeType?, generateGraph_findEdge_par hi hget a, if_pos rfl]
    rfl
  · rw [Graph.edgeType?, generateGraph_findEdge_par hi hget b,
      if_neg (fun h => hne h.symm), if_pos rfl]
    rfl

/-- Observations at the generated siblingship node for pair `(a, b)`. -/
theorem siblingship_obs {n j : Nat} (hj : j < (combPairs n).length)
    {a b : Nat} (hget : (combPairs n).get ⟨j, hj⟩ = (a, b)) :
    (generateGraph n).nodeType? (n + (permPairs n).length + j)
        = some "siblingship"
    ∧ (generateGraph n).edgeType? (n + (permPairs n).length + j) a
        = some "sibling"
    ∧ (generateGraph n).edgeType? (n + (permPairs n).length + j) b
        = some "sibling" := by
  have hmem : (a, b) ∈ combPairs n := hget ▸ List.get_mem _ j hj
  have hlt : a < b := (mem_combPairs.mp hmem).2.2
  refine ⟨?_, ?_, ?_⟩
  · rw [Graph.nodeType?, generateGraph_findNode_siblingship hj]
    rfl
  · rw [Graph.edgeType?, generateGraph_findEdge_sib hj hget a, if_pos rfl]
    rfl
  · rw [Graph.edgeType?, generateGraph_findEdge_sib hj hget b,
      if_neg (by omega), if_pos rfl]
    rfl

/-- The lookup returns exactly the generated parentship node. -/
theorem parentship_roundtrip {n a b i : Nat} (hi : i < (permPairs n).length)
    (hget : (permPairs n).get ⟨i, hi⟩ = (a, b)) :
    findRelationNode (generateGraph n) "parentship" ("parent", "child") (a, b)
      = some (n + i) := by
  obtain ⟨ht, he1, he2⟩ := parentship_obs hi hget
  have hedges := par_edges_mem hi hget
  have hpa : (n + i) ∈ (generateGraph n).predecessors a :=
    mem_predecessors.mpr ⟨_, hedges.1, rfl, rfl⟩
  have hpb : (n + i) ∈ (generateGraph n).predecessors b :=
    mem_predecessors.mpr ⟨_, hedges.2, rfl, rfl⟩
  have hcand : (n + i) ∈ ((generateGraph n).predecessors a).filter
      (fun v => ((generateGraph n).predecessors b).contains v) :=
    List.mem_filter.mpr ⟨hpa, List.elem_iff.mpr hpb⟩
  have hpred : (((generateGraph n).nodeType? (n + i) == some "parentship")
      && ((generateGraph n).edgeType? (n + i) a == some "parent")
      && ((generateGraph n).edgeType? (n + i) b == some "child")) = true := by
    rw [ht, he1, he2]
    simp
  simp only [findRelationNode]
  have hsome : ((((generateGraph n).predecessors a).filter
      (fun v => ((generateGraph n).predecessors b).contains v)).find?
        (fun v => ((generateGraph n).nodeType? v == some "parentship")
          && ((generateGraph n).edgeType? v a == some "parent")
          && ((generateGraph n).edgeType? v b == some "child"))).isSome :=
    List.find?_isSome.mpr ⟨n + i, hcand, hpred⟩
  obtain ⟨y, hy⟩ := Option.isSome_iff_exists.mp hsome
  have hyp := List.find?_some hy
  simp only [Bool.and_eq_true, beq_iff_eq] at hyp
  obtain ⟨⟨hyt, hye1⟩, hye2⟩ := hyp
  obtain ⟨i2, hi2, hyeq, hget2⟩ := parentship_unique hyt hye1 hye2
  have hfin : (⟨i2, hi2⟩ : Fin (permPairs n).length) = ⟨i, hi⟩ :=
    (List.Nodup.get_inj_iff (permPairs_nodup n)).mp (by rw [hget2, hget])
  have hival : i2 = i := congrArg Fin.val hfin
  rw [hy, hyeq, hival]

/-- The lookup returns exactly the generated siblingship node. -/
theorem siblingship_roundtrip {n a b j : Nat} (hj : j < (combPairs n).length)
    (hget : (combPairs n).get ⟨j, hj⟩ = (a, b)) :
    findRelationNode (generateGraph n) "siblingship" ("sibling", "sibling")
        (a, b)
      = some (n + (permPairs n).length + j) := by
  have hmem : (a, b) ∈ combPairs n := hget ▸ List.get_mem _ j hj
  have hltab : a < b := (mem_combPairs.mp hmem).2.2
  obtain ⟨ht, he1, he2⟩ := siblingship_obs hj hget
  have hedges := sib_edges_mem hj hget
  have hpa : (n + (permPairs n).length + j)
      ∈ (generateGraph n).predecessors a :=
    mem_predecessors.mpr ⟨_, hedges.1, rfl, rfl⟩
  have hpb : (n + (permPairs n).length + j)
      ∈ (generateGraph n).predecessors b :=
    mem_predecessors.mpr ⟨_, hedges.2, rfl, rfl⟩
  have hcand : (n + (permPairs n).length + j)
      ∈ ((generateGraph n).predecessors a).filter
        (fun v => ((generateGraph n).predecessors b).contains v) :=
    List.mem_filter.mpr ⟨hpa, List.elem_iff.mpr hpb⟩
  have hpred : (((generateGraph n).nodeType? (n + (permPairs n).length + j)
        == some "siblingship")
      && ((generateGraph n).edgeType? (n + (permPairs n).length + j) a
        == some "sibling")
      && ((generateGraph n).edgeType? (n + (permPairs n).length + j) b
        == some "sibling")) = true := by
    rw [ht, he1, he2]
    simp
  simp only [findRelationNode]
  have hsome : ((((generateGraph n).predecessors a).filter
      (fun v => ((generateGraph n).predecessors b).contains v)).find?
        (fun v => ((generateGraph n).nodeType? v == some "siblingship")
          && ((generateGraph n).edgeType? v a == some "sibling")
          && ((generateGraph n).edgeType? v b == some "sibling"))).isSome :=
    List.find?_isSome.mpr ⟨n + (permPairs n).length + j, hcand, hpred⟩
  obtain ⟨y, hy⟩ := Option.isSome_iff_exists.mp hsome
  have hyp := List.find?_some hy
  simp only [Bool.and_eq_true, beq_iff_eq] at hyp
  obtain ⟨⟨hyt, hye1⟩, hye2⟩ := hyp
  obtain ⟨j2, hj2, hyeq, hmem2a, hmem2b⟩ := siblingship_unique hyt hye1 hye2
  have hpair : (combPairs n).get ⟨j2, hj2⟩
      = (((combPairs n).get ⟨j2, hj2⟩).1, ((combPairs n).get ⟨j2, hj2⟩).2) := rfl
  have hordered : ((combPairs n).get ⟨j2, hj2⟩).1
      < ((combPairs n).get ⟨j2, hj2⟩).2 :=
    (mem_combPairs.mp (hpair ▸ List.get_mem _ j2 hj2)).2.2
  have hget2 : (combPairs n).get ⟨j2, hj2⟩ = (a, b) := by
    rcases hmem2a with h1 | h1 <;> rcases hmem2b with h2 | h2
    · omega
    · rw [hpair, h1, h2]
    · omega
    · omega
  have hfin : (⟨j2, hj2⟩ : Fin (combPairs n).length) = ⟨j, hj⟩ :=
    (List.Nodup.get_inj_iff (combPairs_nodup n)).mp (by rw [hget2, hget])
  have hjval : j2 = j := congrArg Fin.val hfin
  rw [hy, hyeq, hjval]

/-! ## Claims -/

/-- C1: for every `(relation_type, roles, roleplayers)` triple derivable
from the Generator's construction — `parentship`/`(parent, child)` at an
ordered distinct pair, or `siblingship`/`(sibling, sibling)` at an
increasing pair — `find_relation_node` returns a node whose type equals
the relation type and whose edges to the two role-players carry exactly
the requested role types, and this node is the unique node of the graph
satisfying these three conditions. -/
theorem C1_find_relation_node_roundtrip (n a b : Nat) (ha : a < n)
    (hb : b < n) :
    (b ≠ a →
      ∃ v, findRelationNode (generateGraph n) "parentship" ("parent", "child")
            (a, b) = some v
        ∧ (generateGraph n).nodeType? v = some "parentship"
        ∧ (generateGraph n).edgeType? v a = some "parent"
        ∧ (generateGraph n).edgeType? v b = some "child"
        ∧ ∀ w ∈ (generateGraph n).nodeIds,
            (generateGraph n).nodeType? w = some "parentship" →
            (generateGraph n).edgeType? w a = some "parent" →
            (generateGraph n).edgeType? w b = some "child" → w = v)
    ∧ (a < b →
      ∃ v, findRelationNode (generateGraph n) "siblingship"
            ("sibling", "sibling") (a, b) = some v
        ∧ (generateGraph n).nodeType? v = some "siblingship"
        ∧ (generateGraph n).edgeType? v a = some "sibling"
        ∧ (generateGraph n).edgeType? v b = some "sibling"
        ∧ ∀ w ∈ (generateGraph n).nodeIds,
            (generateGraph n).nodeType? w = some "siblingship" →
            (generateGraph n).edgeType? w a = some "sibling" →
            (generateGraph n).edgeType? w b = some "sibling" → w = v) := by
  constructor
  · intro hne
    obtain ⟨⟨i, hi⟩, hget⟩ :=
      List.mem_iff_get.mp (mem_permPairs.mpr ⟨ha, hb, hne⟩)
    obtain ⟨ht, he1, he2⟩ := parentship_obs hi hget
    refine ⟨n + i, parentship_roundtrip hi hget, ht, he1, he2, ?_⟩
    intro w hwmem hwt hwe1 hwe2
    obtain ⟨i2, hi2, hweq, hget2⟩ := parentship_unique hwt hwe1 hwe2
    have hfin : (⟨i2, hi2⟩ : Fin (permPairs n).length) = ⟨i, hi⟩ :=
      (List.Nodup.get_inj_iff (permPairs_nodup n)).mp (by rw [hget2, hget])
    have hival : i2 = i := congrArg Fin.val hfin
    rw [hweq, hival]
  · intro hlt
    obtain ⟨⟨j, hj⟩, hget⟩ :=
      List.mem_iff_get.mp (mem_combPairs.mpr ⟨ha, hb, hlt⟩)
    obtain ⟨ht, he1, he2⟩ := siblingship_obs hj hget
    refine ⟨n + (permPairs n).length + j, siblingship_roundtrip hj hget,
      ht, he1, he2, ?_⟩
    intro w hwmem hwt hwe1 hwe2
    obtain ⟨j2, hj2, hweq, hma, hmb⟩ := siblingship_unique hwt hwe1 hwe2
    have hpair : (combPairs n).get ⟨j2, hj2⟩
        = (((combPairs n).get ⟨j2, hj2⟩).1,
           ((combPairs n).get ⟨j2, hj2⟩).2) := rfl
    have hordered : ((combPairs n).get ⟨j2, hj2⟩).1
        < ((combPairs n).get ⟨j2, hj2⟩).2 :=
      (mem_combPairs.mp (hpair ▸ List.get_mem _ j2 hj2)).2.2
    have hget2 : (combPairs n).get ⟨j2, hj2⟩ = (a, b) := by
      rcases hma with h1 | h1 <;> rcases hmb with h2 | h2
      · omega
      · rw [hpair, h1, h2]
      · omega
      · omega
    have hfin : (⟨j2, hj2⟩ : Fin (combPairs n).length) = ⟨j, hj⟩ :=
      (List.Nodup.get_inj_iff (combPairs_nodup n)).mp (by rw [hget2, hget])
    have hjval : j2 = j := congrArg Fin.val hfin
    rw [hweq, hjval]

/-- Witness for C1 at the concrete input `n = 3`, pair `(0, 1)`. -/
theorem C1_find_relation_node_roundtrip_witness :
    (0 : Nat) < 3 ∧ (1 : Nat) < 3
    ∧ ∃ v, findRelationNode (generateGraph 3) "parentship" ("parent", "child")
          (0, 1) = some v
        ∧ (generateGraph 3).nodeType? v = some "parentship" := by
  refine ⟨by decide, by decide, ?_⟩
  obtain ⟨hpar, -⟩ := C1_find_relation_node_roundtrip 3 0 1 (by decide) (by decide)
  obtain ⟨v, hv, ht, -, -, -⟩ := hpar (by decide)
  exact ⟨v, hv, ht⟩

theorem relNodes_filter_type_same (t : String) (s : Nat)
    (ps : List (Nat × Nat)) :
    (relNodes t s ps).filter (fun nd => nd.type == t) = relNodes t s ps := by
  refine List.filter_eq_self.mpr fun nd hnd => ?_
  obtain ⟨i, hi, rfl⟩ := mem_relNodes.mp hnd
  simp

theorem relNodes_filter_type_other {t t2 : String} (h : t ≠ t2) (s : Nat)
    (ps : List (Nat × Nat)) :
    (relNodes t s ps).filter (fun nd => nd.type == t2) = [] := by
  refine List.filter_eq_nil_iff.mpr fun nd hnd => ?_
  obtain ⟨i, hi, rfl⟩ := mem_relNodes.mp hnd
  simp [h]

theorem personNodes_filter_type_same (n : Nat) :
    (personNodes n).filter (fun nd => nd.type == "person") = personNodes n := by
  refine List.filter_eq_self.mpr fun nd hnd => ?_
  simp only [personNodes, List.mem_map, List.mem_range] at hnd
  obtain ⟨i, hi, rfl⟩ := hnd
  simp

theorem personNodes_filter_type_other {t2 : String} (h : "person" ≠ t2)
    (n : Nat) : (personNodes n).filter (fun nd => nd.type == t2) = [] := by
  refine List.filter_eq_nil_iff.mpr fun nd hnd => ?_
  simp only [personNodes, List.mem_map, List.mem_range] at hnd
  obtain ⟨i, hi, rfl⟩ := hnd
  simp [h]

theorem personNodes_length (n : Nat) : (personNodes n).length = n := by
  simp [personNodes]

/-- C2: `generate_graph(n)` has exactly `n` person nodes, `n*(n-1)`
parentship nodes and `n*(n-1)/2` siblingship nodes, and every non-person
node has out-degree exactly 2. -/
theorem C2_generate_graph_counts (n : Nat) :
    ((generateGraph n).nodes.filter (fun nd => nd.type == "person")).length = n
    ∧ ((generateGraph n).nodes.filter
        (fun nd => nd.type == "parentship")).length = n * (n - 1)
    ∧ ((generateGraph n).nodes.filter
        (fun nd => nd.type == "siblingship")).length = n * (n - 1) / 2
    ∧ ∀ nd ∈ (generateGraph n).nodes, nd.type ≠ "person" →
        (generateGraph n).outDegree nd.id = 2 := by
  refine ⟨?_, ?_, ?_, ?_⟩
  · rw [generateGraph_nodes, List.filter_append, List.filter_append,
      personNodes_filter_type_same,
      relNodes_filter_type_other (by decide) n (permPairs n),
      relNodes_filter_type_other (by decide) (n + (permPairs n).length)
        (combPairs n)]
    simp [personNodes_length]
  · rw [generateGraph_nodes, List.filter_append, List.filter_append,
      personNodes_filter_type_other (by decide),
      relNodes_filter_type_same,
      relNodes_filter_type_other (by decide) (n + (permPairs n).length)
        (combPairs n)]
    simp [relNodes_length, length_permPairs]
  · rw [generateGraph_nodes, List.filter_append, List.filter_append,
      personNodes_filter_type_other (by decide),
      relNodes_filter_type_other (by decide) n (permPairs n),
      relNodes_filter_type_same]
    simp [relNodes_length, length_combPairs]
  · intro nd hnd hnp
    rw [generateGraph_nodes, List.mem_append, List.mem_append] at hnd
    rcases hnd with (hper | hpar) | hsib
    · simp only [personNodes, List.mem_map, List.mem_range] at hper
      obtain ⟨i, hi, rfl⟩ := hper
      exact absurd rfl hnp
    · obtain ⟨i, hi, rfl⟩ := mem_relNodes.mp hpar
      show (generateGraph n).outDegree (n + i) = 2
      rw [Graph.outDegree, generateGraph_filter_src_par hi]
      rfl
    · obtain ⟨j, hj, rfl⟩ := mem_relNodes.mp hsib
      show (generateGraph n).outDegree (n + (permPairs n).length + j) = 2
      rw [Graph.outDegree, generateGraph_filter_src_sib hj]
      rfl

/-- Witness for C2 at `n = 3`, checking the person count and the
out-degree of the parentship node 3. -/
theorem C2_generate_graph_counts_witness :
    ((generateGraph 3).nodes.filter (fun nd => nd.type == "person")).length = 3
    ∧ (generateGraph 3).outDegree 3 = 2 := by
  obtain ⟨h1, h2, h3, h4⟩ := C2_generate_graph_counts 3
  refine ⟨h1, ?_⟩
  have hmem : (⟨3, "parentship", []⟩ : NodeEntry) ∈ (generateGraph 3).nodes := by
    decide
  exact h4 ⟨3, "parentship", []⟩ hmem (by decide)

theorem relNodes_map_id (t : String) (s : Nat) (ps : List (Nat × Nat)) :
    (relNodes t s ps).map NodeEntry.id = List.range' s ps.length := by
  induction ps generalizing s with
  | nil => rfl
  | cons p rest ih =>
      show s :: (relNodes t (s + 1) rest).map NodeEntry.id
        = List.range' s (rest.length + 1)
      rw [List.range'_succ, ih (s + 1)]

theorem personNodes_map_id (n : Nat) :
    (personNodes n).map NodeEntry.id = List.range n := by
  rw [personNodes, List.map_map]
  have h : (NodeEntry.id ∘ fun i => (⟨i, "person", []⟩ : NodeEntry)) = id := rfl
  rw [h, List.map_id]

/-- Pairwise on a flat map, from pairwise inner lists and a pairwise cross
property. -/
theorem pairwise_flatMap {α β : Type} {R : β → β → Prop} {f : α → List β}
    {l : List α} (hinner : ∀ a ∈ l, (f a).Pairwise R)
    (hcross : l.Pairwise fun a a2 => ∀ b ∈ f a, ∀ b2 ∈ f a2, R b b2) :
    (l.flatMap f).Pairwise R := by
  induction l with
  | nil => simp
  | cons x xs ih =>
      rw [List.flatMap_cons, List.pairwise_append]
      obtain ⟨hhead, htail⟩ := List.pairwise_cons.mp hcross
      refine ⟨hinner x (by simp), ih (fun a ha => hinner a (by simp [ha])) htail,
        ?_⟩
      intro b hb b2 hb2
      rw [List.mem_flatMap] at hb2
      obtain ⟨a2, ha2, hb2⟩ := hb2
      exact hhead a2 ha2 b hb b2 hb2

theorem permPairs_sorted (n : Nat) : (permPairs n).Pairwise pairLexLt := by
  rw [permPairs]
  refine pairwise_flatMap (fun a _ => ?_) ?_
  · refine List.Pairwise.map _ (fun x y hxy => ?_)
      ((List.pairwise_lt_range n).filter _)
    exact Or.inr ⟨rfl, hxy⟩
  · refine (List.pairwise_lt_range n).imp (fun hlt => ?_)
    intro b hb b2 hb2
    simp only [List.mem_map, List.mem_filter] at hb hb2
    obtain ⟨x, _, rfl⟩ := hb
    obtain ⟨y, _, rfl⟩ := hb2
    exact Or.inl hlt

theorem combPairs_sorted (n : Nat) : (combPairs n).Pairwise pairLexLt := by
  rw [combPairs]
  refine pairwise_flatMap (fun a _ => ?_) ?_
  · refine List.Pairwise.map _ (fun x y hxy => ?_)
      ((List.pairwise_lt_range n).filter _)
    exact Or.inr ⟨rfl, hxy⟩
  · refine (List.pairwise_lt_range n).imp (fun hlt => ?_)
    intro b hb b2 hb2
    simp only [List.mem_map, List.mem_filter] at hb hb2
    obtain ⟨x, _, rfl⟩ := hb
    obtain ⟨y, _, rfl⟩ := hb2
    exact Or.inl hlt

/-- C3: node ids are assigned in generation order: `0..n-1` are the person
nodes, the next `n*(n-1)` ids are the parentship nodes in the
lexicographic order of the ordered pair generator, and the following
`n*(n-1)/2` ids are the siblingship nodes in the lexicographic order of
the increasing pair generator. -/
theorem C3_node_id_layout (n : Nat) :
    (generateGraph n).nodeIds
        = List.range (n + n * (n - 1) + n * (n - 1) / 2)
    ∧ (∀ v, v < n → (generateGraph n).nodeType? v = some "person")
    ∧ (∀ i, i < n * (n - 1) →
        (generateGraph n).nodeType? (n + i) = some "parentship")
    ∧ (∀ j, j < n * (n - 1) / 2 →
        (generateGraph n).nodeType? (n + n * (n - 1) + j)
          = some "siblingship")
    ∧ (permPairs n).Pairwise pairLexLt
    ∧ (∀ p : Nat × Nat, p ∈ permPairs n ↔ p.1 < n ∧ p.2 < n ∧ p.2 ≠ p.1)
    ∧ (combPairs n).Pairwise pairLexLt
    ∧ (∀ p : Nat × Nat, p ∈ combPairs n ↔ p.1 < n ∧ p.2 < n ∧ p.1 < p.2)
    ∧ (∀ i a b, (permPairs n).get? i = some (a, b) →
        (generateGraph n).edgeType? (n + i) a = some "parent"
        ∧ (generateGraph n).edgeType? (n + i) b = some "child")
    ∧ (∀ j a b, (combPairs n).get? j = some (a, b) →
        (generateGraph n).edgeType? (n + n * (n - 1) + j) a = some "sibling"
        ∧ (generateGraph n).edgeType? (n + n * (n - 1) + j) b
          = some "sibling") := by
  refine ⟨?_, ?_, ?_, ?_, permPairs_sorted n, ?_, combPairs_sorted n, ?_, ?_, ?_⟩
  · rw [Graph.nodeIds, generateGraph_nodes, List.map_append, List.map_append,
      personNodes_map_id, relNodes_map_id, relNodes_map_id,
      length_permPairs, length_combPairs]
    have h1 := List.range'_append n (n * (n - 1)) (n * (n - 1) / 2) 1
    rw [one_mul] at h1
    have h2 := List.range'_append 0 n (n * (n - 1) + n * (n - 1) / 2) 1
    rw [one_mul, Nat.zero_add] at h2
    rw [List.range_eq_range', List.append_assoc, h1,
      Nat.add_comm (n * (n - 1) / 2) (n * (n - 1)), h2, List.range_eq_range']
    have h3 : n * (n - 1) + n * (n - 1) / 2 + n
        = n + n * (n - 1) + n * (n - 1) / 2 := by omega
    rw [h3]
  · intro v hv
    rw [Graph.nodeType?, generateGraph_findNode_person hv]
    rfl
  · intro i hi
    rw [Graph.nodeType?,
      generateGraph_findNode_parentship (by rw [length_permPairs]; exact hi)]
    rfl
  · intro j hj
    have hP : n + n * (n - 1) + j = n + (permPairs n).length + j := by
      rw [length_permPairs]
    rw [hP, Graph.nodeType?,
      generateGraph_findNode_siblingship (by rw [length_combPairs]; exact hj)]
    rfl
  · intro p
    obtain ⟨a, b⟩ := p
    exact mem_permPairs
  · intro p
    obtain ⟨a, b⟩ := p
    exact mem_combPairs
  · intro i a b hab
    obtain ⟨hi, hget⟩ := List.get?_eq_some.mp hab
    exact ⟨(parentship_obs hi hget).2.1, (parentship_obs hi hget).2.2⟩
  · intro j a b hab
    obtain ⟨hj, hget⟩ := List.get?_eq_some.mp hab
    have hP : n + n * (n - 1) + j = n + (permPairs n).length + j := by
      rw [length_permPairs]
    rw [hP]
    exact ⟨(siblingship_obs hj hget).2.1, (siblingship_obs hj hget).2.2⟩

/-- Witness for C3 at `n = 3`: ids are `0..11` and node 5 (the third
parentship, pair `(1, 0)`) is typed `parentship`. -/
theorem C3_node_id_layout_witness :
    (generateGraph 3).nodeIds
        = List.range (3 + 3 * (3 - 1) + 3 * (3 - 1) / 2)
    ∧ (generateGraph 3).nodeType? (3 + 2) = some "parentship" := by
  obtain ⟨h1, h2, h3, -⟩ := C3_node_id_layout 3
  exact ⟨h1, h3 2 (by decide)⟩

/-- C4: after `add_base_labels(G, attrs)` on a generated graph, every
named attribute reads 1 on person nodes, 0 on all other nodes, and 0 on
every edge. -/
theorem C4_add_base_labels_values (n : Nat) (attributes : List String)
    (k : String) (hk : k ∈ attributes) :
    (∀ nd ∈ (addBaseLabels (generateGraph n) attributes).nodes,
        getAttr nd.attrs k = some (if nd.type = "person" then 1 else 0))
    ∧ ∀ e ∈ (addBaseLabels (generateGraph n) attributes).edges,
        getAttr e.attrs k = some 0 := by
  constructor
  · intro nd hnd
    simp only [addBaseLabels, List.mem_map] at hnd
    obtain ⟨nd0, hnd0, rfl⟩ := hnd
    show getAttr (setAll nd0.attrs attributes
        (if nd0.type = "person" then 1 else 0)) k
      = some (if nd0.type = "person" then 1 else 0)
    exact getAttr_setAll_mem nd0.attrs _ hk
  · intro e he
    simp only [addBaseLabels, List.mem_map] at he
    obtain ⟨e0, he0, rfl⟩ := he
    show getAttr (setAll e0.attrs attributes 0) k = some 0
    exact getAttr_setAll_mem e0.attrs _ hk

/-- Witness for C4 at `n = 2` and attribute list `["input", "solution"]`. -/
theorem C4_add_base_labels_values_witness :
    ("input" ∈ ["input", "solution"])
    ∧ ((∀ nd ∈ (addBaseLabels (generateGraph 2) ["input", "solution"]).nodes,
        getAttr nd.attrs "input" = some (if nd.type = "person" then 1 else 0))
      ∧ ∀ e ∈ (addBaseLabels (generateGraph 2) ["input", "solution"]).edges,
        getAttr e.attrs "input" = some 0) :=
  ⟨by decide, C4_add_base_labels_values 2 ["input", "solution"] "input"
    (by decide)⟩

theorem relEdges_attrs_nil (r1 r2 : String) (s : Nat) (ps : List (Nat × Nat)) :
    ∀ e ∈ relEdges r1 r2 s ps, e.attrs = [] := by
  induction ps generalizing s with
  | nil => intro e he; simp [relEdges] at he
  | cons p rest ih =>
      obtain ⟨a, b⟩ := p
      intro e he
      simp only [relEdges, List.mem_cons] at he
      rcases he with rfl | rfl | he
      · rfl
      · rfl
      · exact ih (s + 1) e he

theorem generateGraph_node_attrs_nil {n : Nat} :
    ∀ nd ∈ (generateGraph n).nodes, nd.attrs = [] := by
  intro nd hnd
  rw [generateGraph_nodes, List.mem_append, List.mem_append] at hnd
  rcases hnd with (hper | hpar) | hsib
  · simp only [personNodes, List.mem_map, List.mem_range] at hper
    obtain ⟨i, hi, rfl⟩ := hper
    rfl
  · obtain ⟨i, hi, rfl⟩ := mem_relNodes.mp hpar
    rfl
  · obtain ⟨j, hj, rfl⟩ := mem_relNodes.mp hsib
    rfl

theorem generateGraph_edge_attrs_nil {n : Nat} :
    ∀ e ∈ (generateGraph n).edges, e.attrs = [] := by
  intro e he
  rw [generateGraph_edges, List.mem_append] at he
  rcases he with he | he
  · exact relEdges_attrs_nil _ _ _ _ e he
  · exact relEdges_attrs_nil _ _ _ _ e he

/-- A fresh `setAll` from an empty dictionary satisfies `AttrSim` with
itself. -/
theorem attrSim_setAll_nil (ks : List String) (v : Nat) :
    AttrSim ks v (setAll [] ks v) (setAll [] ks v) := by
  refine ⟨rfl, keysOf_setAll_nodup ks v (by simp), ?_, ?_⟩
  · intro k hk
    rcases mem_keysOf_setAll hk with h | h
    · simp at h
    · exact h
  · intro k hk
    exact getAttr_setAll_mem [] v hk

/-- The base-labeled generated graph is similar to itself. -/
theorem graphSim_base (n : Nat) (attributes : List String) :
    GraphSim attributes (addBaseLabels (generateGraph n) attributes)
      (addBaseLabels (generateGraph n) attributes) := by
  constructor
  · refine List.forall₂_same.mpr fun x hx => ?_
    simp only [addBaseLabels, List.mem_map] at hx
    obtain ⟨nd0, hnd0, rfl⟩ := hx
    have hnil := generateGraph_node_attrs_nil nd0 hnd0
    refine ⟨rfl, rfl, ?_⟩
    show AttrSim attributes (if nd0.type = "person" then 1 else 0)
      (setAll nd0.attrs attributes (if nd0.type = "person" then 1 else 0))
      (setAll nd0.attrs attributes (if nd0.type = "person" then 1 else 0))
    rw [hnil]
    exact attrSim_setAll_nil attributes _
  · refine List.forall₂_same.mpr fun x hx => ?_
    simp only [addBaseLabels, List.mem_map] at hx
    obtain ⟨e0, he0, rfl⟩ := hx
    have hnil := generateGraph_edge_attrs_nil e0 he0
    refine ⟨rfl, rfl, rfl, ?_⟩
    show AttrSim attributes 0 (setAll e0.attrs attributes 0)
      (setAll e0.attrs attributes 0)
    rw [hnil]
    exact attrSim_setAll_nil attributes 0

/-- Writing value 1 under names drawn from `ks` into a similar dictionary
preserves the similarity. -/
theorem attrSim_setAll_one {ks attrs2 : List String} {v w : Nat}
    {base cur : List (String × Nat)} (hsim : AttrSim ks v base cur)
    (hsub : ∀ a ∈ attrs2, a ∈ ks) :
    AttrSim ks v base (setAll cur attrs2 w) := by
  obtain ⟨hkeys, hnd, hks, hval⟩ := hsim
  have hsub2 : ∀ a ∈ attrs2, a ∈ keysOf cur := by
    intro a ha
    rw [hkeys]
    exact mem_keysOf_of_getAttr (hval a (hsub a ha))
  exact ⟨by rw [keysOf_setAll_of_sub cur w hsub2, hkeys], hnd, hks, hval⟩

/-- A successful `add_relation_label` preserves graph similarity. -/
theorem graphSim_addRelationLabel {ks : List String} {G0 H H2 : Graph}
    {rt : String} {roles : String × String} {rps : Nat × Nat}
    {attrs2 : List String} (hsim : GraphSim ks G0 H)
    (hsub : ∀ a ∈ attrs2, a ∈ ks)
    (h : addRelationLabel H rt roles rps attrs2 = some H2) :
    GraphSim ks G0 H2 := by
  rw [addRelationLabel] at h
  cases hfind : findRelationNode H rt roles rps with
  | none =>
      rw [hfind] at h
      by_cases he : attrs2.isEmpty
      · rw [if_pos he] at h
        injection h with h
        subst h
        exact hsim
      · rw [if_neg he] at h
        exact absurd h (by simp)
  | some rel =>
      rw [hfind] at h
      injection h with h
      subst h
      constructor
      · rw [List.forall₂_map_right_iff]
        refine (hsim.1).imp fun bnd cnd hns => ?_
        obtain ⟨hid, htype, hattr⟩ := hns
        by_cases hrel : (cnd.id == rel) = true
        · rw [if_pos hrel]
          exact ⟨hid, htype, attrSim_setAll_one hattr hsub⟩
        · rw [if_neg hrel]
          exact ⟨hid, htype, hattr⟩
      · rw [List.forall₂_map_right_iff]
        refine (hsim.2).imp fun be ce hes => ?_
        obtain ⟨hsrc, hdst, htype, hattr⟩ := hes
        by_cases hrel : (ce.src == rel && (ce.dst == rps.1 || ce.dst == rps.2))
              = true
        · rw [if_pos hrel]
          exact ⟨hsrc, hdst, htype, attrSim_setAll_one hattr hsub⟩
        · rw [if_neg hrel]
          exact ⟨hsrc, hdst, htype, hattr⟩

/-- Mapping the base-label node update over a similar node list restores
the base node list. -/
theorem forall₂_node_restore {ks : List String} :
    ∀ {bl cl : List NodeEntry}, List.Forall₂ (NodeSim ks) bl cl →
      cl.map (fun nd => { nd with attrs := setAll nd.attrs ks (if nd.type = "person" then 1 else 0) }) = bl := by
  intro bl cl h
  induction h with
  | nil => rfl
  | cons hr htail ih =>
      rename_i bnd cnd brest crest
      obtain ⟨bi, bt, bm⟩ := bnd
      obtain ⟨ci, ct, cm⟩ := cnd
      obtain ⟨hid, htype, hkeys, hnd2, hks, hval⟩ := hr
      have hid2 : ci = bi := hid
      have htype2 : ct = bt := htype
      subst hid2
      subst htype2
      have hkeys2 : keysOf cm = keysOf bm := hkeys
      have hnd3 : (keysOf bm).Nodup := hnd2
      have hks2 : ∀ k ∈ keysOf bm, k ∈ ks := hks
      have hval2 : ∀ k ∈ ks, getAttr bm k
          = some (if ct = "person" then 1 else 0) := hval
      have hout : ∀ k, k ∉ ks → getAttr cm k = getAttr bm k := by
        intro k hk
        have hkb : k ∉ keysOf bm := fun hmem => hk (hks2 k hmem)
        rw [getAttr_eq_none_of_not_mem hkb,
          getAttr_eq_none_of_not_mem (by rw [hkeys2]; exact hkb)]
      have hattrs : setAll cm ks (if ct = "person" then 1 else 0) = bm := by
        rw [setAll_congr hkeys2 (by rw [hkeys2]; exact hnd3) hout]
        exact setAll_id hval2
      rw [List.map_cons]
      exact congrArg₂ List.cons (congrArg (NodeEntry.mk ci ct) hattrs) ih

/-- Mapping the base-label edge update over a similar edge list restores
the base edge list. -/
theorem forall₂_edge_restore {ks : List String} :
    ∀ {bl cl : List EdgeEntry}, List.Forall₂ (EdgeSim ks) bl cl →
      cl.map (fun e => { e with attrs := setAll e.attrs ks 0 }) = bl := by
  intro bl cl h
  induction h with
  | nil => rfl
  | cons hr htail ih =>
      rename_i be ce brest crest
      obtain ⟨bs, bd, bt, bm⟩ := be
      obtain ⟨cs, cd, ct, cm⟩ := ce
      obtain ⟨hsrc, hdst, htype, hkeys, hnd2, hks, hval⟩ := hr
      have hsrc2 : cs = bs := hsrc
      have hdst2 : cd = bd := hdst
      have htype2 : ct = bt := htype
      subst hsrc2
      subst hdst2
      subst htype2
      have hkeys2 : keysOf cm = keysOf bm := hkeys
      have hnd3 : (keysOf bm).Nodup := hnd2
      have hks2 : ∀ k ∈ keysOf bm, k ∈ ks := hks
      have hval2 : ∀ k ∈ ks, getAttr bm k = some 0 := hval
      have hout : ∀ k, k ∉ ks → getAttr cm k = getAttr bm k := by
        intro k hk
        have hkb : k ∉ keysOf bm := fun hmem => hk (hks2 k hmem)
        rw [getAttr_eq_none_of_not_mem hkb,
          getAttr_eq_none_of_not_mem (by rw [hkeys2]; exact hkb)]
      have hattrs : setAll cm ks 0 = bm := by
        rw [setAll_congr hkeys2 (by rw [hkeys2]; exact hnd3) hout]
        exact setAll_id hval2
      rw [List.map_cons]
      exact congrArg₂ List.cons (congrArg (EdgeEntry.mk cs cd ct) hattrs) ih

/-- Re-applying `add_base_labels` to any similar graph restores the
base-labeled graph exactly. -/
theorem addBaseLabels_of_graphSim {ks : List String} {G0 H : Graph}
    (hsim : GraphSim ks G0 H) : addBaseLabels H ks = G0 := by
  obtain ⟨hn, he⟩ := hsim
  obtain ⟨gnodes, gedges⟩ := G0
  exact congrArg₂ Graph.mk (forall₂_node_restore hn) (forall₂_edge_restore he)

/-- Any successful sequence of labeling calls whose attributes come from
`ks` preserves similarity to the base-labeled graph. -/
theorem graphSim_applyCalls {ks : List String} {G0 : Graph} :
    ∀ {calls : List LabelCall} {cur H : Graph}, GraphSim ks G0 cur →
      (∀ c ∈ calls, ∀ a ∈ c.attrs, a ∈ ks) →
      applyCalls cur calls = some H → GraphSim ks G0 H := by
  intro calls
  induction calls with
  | nil =>
      intro cur H hsim hsub h
      injection h with h
      subst h
      exact hsim
  | cons c cs ih =>
      intro cur H hsim hsub h
      show GraphSim ks G0 H
      rw [show applyCalls cur (c :: cs)
          = (applyCall cur c).bind (fun G2 => applyCalls G2 cs) from rfl] at h
      cases happ : applyCall cur c with
      | none => rw [happ] at h; exact absurd h (by simp)
      | some mid =>
          rw [happ] at h
          rw [Option.some_bind] at h
          have hmid : GraphSim ks G0 mid :=
            graphSim_addRelationLabel hsim (hsub c (by simp)) happ
          exact ih hmid (fun c2 hc2 => hsub c2 (by simp [hc2])) h

/-- C5: `add_base_labels` is idempotent, and after any successful sequence
of `add_relation_label` calls drawing attribute names from the same list,
re-running `add_base_labels` restores the state of the freshly generated,
base-labeled graph. -/
theorem C5_add_base_labels_idempotent_reset :
    (∀ (G : Graph) (attributes : List String),
      addBaseLabels (addBaseLabels G attributes) attributes
        = addBaseLabels G attributes)
    ∧ ∀ (n : Nat) (attributes : List String) (calls : List LabelCall)
        (H : Graph),
        (∀ c ∈ calls, ∀ a ∈ c.attrs, a ∈ attributes) →
        applyCalls (addBaseLabels (generateGraph n) attributes) calls
          = some H →
        addBaseLabels H attributes
          = addBaseLabels (generateGraph n) attributes := by
  constructor
  · intro G attributes
    have hmk : ∀ (a c : List NodeEntry) (b d : List EdgeEntry),
        a = c → b = d → Graph.mk a b = Graph.mk c d := by
      intro a c b d h1 h2
      rw [h1, h2]
    refine hmk _ _ _ _ ?_ ?_
    · simp only [addBaseLabels]
      rw [List.map_map]
      refine List.map_congr_left fun nd hnd => ?_
      obtain ⟨i, t, m⟩ := nd
      show NodeEntry.mk i t (setAll (setAll m attributes
          (if t = "person" then 1 else 0)) attributes
          (if t = "person" then 1 else 0))
        = NodeEntry.mk i t (setAll m attributes
          (if t = "person" then 1 else 0))
      exact congrArg _ (setAll_id (fun k hk => getAttr_setAll_mem m _ hk))
    · simp only [addBaseLabels]
      rw [List.map_map]
      refine List.map_congr_left fun e he => ?_
      obtain ⟨u, v, t, m⟩ := e
      show EdgeEntry.mk u v t (setAll (setAll m attributes 0) attributes 0)
        = EdgeEntry.mk u v t (setAll m attributes 0)
      exact congrArg _ (setAll_id (fun k hk => getAttr_setAll_mem m _ hk))
  · intro n attributes calls H hsub happ
    exact addBaseLabels_of_graphSim
      (graphSim_applyCalls (graphSim_base n attributes) hsub happ)

/-- Witness for C5: idempotence at `n = 2` with `["input"]`, and reset
after one parentship labeling call on the 2-person graph. -/
theorem C5_add_base_labels_idempotent_reset_witness :
    (addBaseLabels (addBaseLabels (generateGraph 2) ["input"]) ["input"]
      = addBaseLabels (generateGraph 2) ["input"])
    ∧ addBaseLabels c5Relabeled ["input", "solution"]
      = addBaseLabels (generateGraph 2) ["input", "solution"] := by
  refine ⟨C5_add_base_labels_idempotent_reset.1 (generateGraph 2) ["input"],
    ?_⟩
  exact C5_add_base_labels_idempotent_reset.2 2 ["input", "solution"]
    [⟨"parentship", ("parent", "child"), (0, 1), ["solution"]⟩] c5Relabeled
    (by decide) (by decide)

/-- A scan commutes with a map that preserves the scanned predicate. -/
theorem find?_map_of_pred {α : Type} (l : List α) (g : α → α) (p : α → Bool)
    (h : ∀ x, p (g x) = p x) :
    (l.map g).find? p = (l.find? p).map g := by
  induction l with
  | nil => rfl
  | cons x xs ih =>
      by_cases hp : p x = true
      · rw [List.map_cons, find?_cons_pos p (g x) _ (by rw [h x]; exact hp),
          find?_cons_pos p x _ hp]
        rfl
      · rw [List.map_cons,
          find?_cons_neg p (g x) _ (by rw [h x]; exact Bool.eq_false_iff.mpr hp),
          find?_cons_neg p x _ (Bool.eq_false_iff.mpr hp), ih]

/-- A successful `add_relation_label` is exactly the in-place update of
the relation node and its two role edges. -/
theorem addRelationLabel_some {G : Graph} {rt : String}
    {roles : String × String} {rps : Nat × Nat} {attrs2 : List String}
    {rel : Nat} {G2 : Graph}
    (hfind : findRelationNode G rt roles rps = some rel)
    (hrun : addRelationLabel G rt roles rps attrs2 = some G2) :
    G2 = Graph.mk
      (G.nodes.map fun nd => if nd.id == rel then { nd with attrs := setAll nd.attrs attrs2 1 } else nd)
      (G.edges.map fun e => if e.src == rel && (e.dst == rps.1 || e.dst == rps.2) then { e with attrs := setAll e.attrs attrs2 1 } else e) := by
  rw [addRelationLabel, hfind] at hrun
  injection hrun with h
  exact h.symm

theorem mapped_findNode (G : Graph) (rel : Nat) (attrs2 : List String)
    (rps : Nat × Nat) (v : Nat) :
    (Graph.mk
      (G.nodes.map fun nd => if nd.id == rel then { nd with attrs := setAll nd.attrs attrs2 1 } else nd)
      (G.edges.map fun e => if e.src == rel && (e.dst == rps.1 || e.dst == rps.2) then { e with attrs := setAll e.attrs attrs2 1 } else e)).findNode? v
    = (G.findNode? v).map
        (fun nd => if nd.id == rel then { nd with attrs := setAll nd.attrs attrs2 1 } else nd) := by
  refine find?_map_of_pred G.nodes _ _ fun nd0 => ?_
  by_cases h : (nd0.id == rel) = true
  · rw [if_pos h]
  · rw [if_neg h]

theorem mapped_findEdge (G : Graph) (rel : Nat) (attrs2 : List String)
    (rps : Nat × Nat) (u v : Nat) :
    (Graph.mk
      (G.nodes.map fun nd => if nd.id == rel then { nd with attrs := setAll nd.attrs attrs2 1 } else nd)
      (G.edges.map fun e => if e.src == rel && (e.dst == rps.1 || e.dst == rps.2) then { e with attrs := setAll e.attrs attrs2 1 } else e)).findEdge? u v
    = (G.findEdge? u v).map
        (fun e => if e.src == rel && (e.dst == rps.1 || e.dst == rps.2) then { e with attrs := setAll e.attrs attrs2 1 } else e) := by
  refine find?_map_of_pred G.edges _ _ fun e0 => ?_
  by_cases h : (e0.src == rel && (e0.dst == rps.1 || e0.dst == rps.2)) = true
  · rw [if_pos h]
  · rw [if_neg h]

/-- C6: on a generated, base-labeled graph, `add_relation_label` with the
`solution` attribute sets `solution` to 1 on the located relation node and
on both of its role edges, and changes no other node or edge `solution`
value. -/
theorem C6_add_relation_label_frame (n : Nat) (attributes : List String)
    (G G2 : Graph) (rt r1 r2 : String) (a b rel : Nat)
    (hG : G = addBaseLabels (generateGraph n) attributes)
    (hfind : findRelationNode G rt (r1, r2) (a, b) = some rel)
    (hrun : addRelationLabel G rt (r1, r2) (a, b) ["solution"] = some G2) :
    G2.nodeAttr? rel "solution" = some 1
    ∧ G2.edgeAttr? rel a "solution" = some 1
    ∧ G2.edgeAttr? rel b "solution" = some 1
    ∧ (∀ v, v ≠ rel → G2.nodeAttr? v "solution" = G.nodeAttr? v "solution")
    ∧ ∀ u v, ¬ (u = rel ∧ (v = a ∨ v = b)) →
        G2.edgeAttr? u v "solution" = G.edgeAttr? u v "solution" := by
  have hG2 := addRelationLabel_some hfind hrun
  subst hG2
  have hp := List.find?_some hfind
  simp only [Bool.and_eq_true, beq_iff_eq] at hp
  obtain ⟨⟨hty, he1⟩, he2⟩ := hp
  obtain ⟨nd, hndfind, hndtype⟩ := Option.map_eq_some'.mp hty
  obtain ⟨ea, heafind, heatype⟩ := Option.map_eq_some'.mp he1
  obtain ⟨eb, hebfind, hebtype⟩ := Option.map_eq_some'.mp he2
  have hndid : nd.id = rel := by simpa using List.find?_some hndfind
  have heaprop : ea.src = rel ∧ ea.dst = a := by
    simpa using List.find?_some heafind
  have hebprop : eb.src = rel ∧ eb.dst = b := by
    simpa using List.find?_some hebfind
  refine ⟨?_, ?_, ?_, ?_, ?_⟩
  · rw [Graph.nodeAttr?, mapped_findNode, hndfind]
    simp [hndid, getAttr_setAll_mem]
  · rw [Graph.edgeAttr?, mapped_findEdge, heafind]
    simp [heaprop.1, heaprop.2, getAttr_setAll_mem]
  · rw [Graph.edgeAttr?, mapped_findEdge, hebfind]
    simp [hebprop.1, hebprop.2, getAttr_setAll_mem]
  · intro v hv
    rw [Graph.nodeAttr?, Graph.nodeAttr?, mapped_findNode]
    cases hc : G.findNode? v with
    | none => rfl
    | some nd0 =>
        have hid0 : nd0.id = v := by simpa using List.find?_some hc
        simp [hid0, hv]
  · intro u v huv
    rw [Graph.edgeAttr?, Graph.edgeAttr?, mapped_findEdge]
    cases hc : G.findEdge? u v with
    | none => rfl
    | some e0 =>
        have hprop : e0.src = u ∧ e0.dst = v := by
          simpa using List.find?_some hc
        by_cases hu : u = rel
        · have hvab : ¬ (v = a ∨ v = b) := fun hor => huv ⟨hu, hor⟩
          push_neg at hvab
          simp [hprop.1, hprop.2, hvab.1, hvab.2]
        · simp [hprop.1, hu]

/-- Witness for C6: scenario-0 siblingship labeling on the base graph of
3 people. -/
theorem C6_add_relation_label_frame_witness :
    c6Labeled.nodeAttr? 11 "solution" = some 1
    ∧ c6Labeled.edgeAttr? 11 1 "solution" = some 1
    ∧ c6Labeled.edgeAttr? 11 2 "solution" = some 1
    ∧ (∀ v, v ≠ 11 → c6Labeled.nodeAttr? v "solution"
        = (baseGraph 3).nodeAttr? v "solution")
    ∧ ∀ u v, ¬ (u = 11 ∧ (v = 1 ∨ v = 2)) →
        c6Labeled.edgeAttr? u v "solution"
          = (baseGraph 3).edgeAttr? u v "solution" :=
  C6_add_relation_label_frame 3 ["input", "solution"] (baseGraph 3) c6Labeled
    "siblingship" "sibling" "sibling" 1 2 11 rfl (by decide) (by decide)

/-- Counterexample to C7 as stated: with an empty attribute tuple the
Python loop body never runs, so a failed lookup returns normally and
leaves the graph unchanged — a silent no-op. -/
theorem C7_counterexample_empty_attrs :
    findRelationNode (generateGraph 2) "parentship" ("parent", "parent")
        (0, 1) = none
    ∧ addRelationLabel (generateGraph 2) "parentship" ("parent", "parent")
        (0, 1) [] = some (generateGraph 2) := by
  refine ⟨by decide, by decide⟩

/-- C7 (amended): for every call of `add_relation_label` naming at least
one attribute whose triple matches no relation node, the call fails (the
write `G.nodes[None][attribute]` raises) rather than returning normally. -/
theorem C7_add_relation_label_error (G : Graph) (rt : String)
    (roles : String × String) (rps : Nat × Nat) (attributes : List String)
    (hne : attributes ≠ [])
    (hfind : findRelationNode G rt roles rps = none) :
    addRelationLabel G rt roles rps attributes = none := by
  rw [addRelationLabel, hfind,
    if_neg (by simp [List.isEmpty_iff, hne])]

/-- Witness for the amended C7 at a concrete unmatched triple. -/
theorem C7_add_relation_label_error_witness :
    (["input"] ≠ ([] : List String))
    ∧ addRelationLabel (generateGraph 2) "parentship" ("parent", "parent")
        (0, 1) ["input"] = none :=
  ⟨by decide, C7_add_relation_label_error (generateGraph 2) "parentship"
    ("parent", "parent") (0, 1) ["input"] (by decide) (by decide)⟩

/-- C8: `create_graph(0)` is a 3-person graph (ids 0, 1, 2); the
siblingship between 1 and 2 (node 11) reads `solution = 1` but
`input = 0` on its relation node and both sibling edges, while the
parentship nodes for `(0, 1)` (node 3) and `(0, 2)` (node 4) read both
`input = 1` and `solution = 1`. -/
theorem C8_scenario0_concrete :
    createGraph 0 = some scenario0
    ∧ scenario0.nodeType? 0 = some "person"
    ∧ scenario0.nodeType? 1 = some "person"
    ∧ scenario0.nodeType? 2 = some "person"
    ∧ ((scenario0.nodes.filter (fun nd => nd.type == "person")).length = 3)
    ∧ findRelationNode scenario0 "siblingship" ("sibling", "sibling") (1, 2)
        = some 11
    ∧ scenario0.nodeAttr? 11 "solution" = some 1
    ∧ scenario0.nodeAttr? 11 "input" = some 0
    ∧ scenario0.edgeAttr? 11 1 "solution" = some 1
    ∧ scenario0.edgeAttr? 11 1 "input" = some 0
    ∧ scenario0.edgeAttr? 11 2 "solution" = some 1
    ∧ scenario0.edgeAttr? 11 2 "input" = some 0
    ∧ findRelationNode scenario0 "parentship" ("parent", "child") (0, 1)
        = some 3
    ∧ scenario0.nodeAttr? 3 "input" = some 1
    ∧ scenario0.nodeAttr? 3 "solution" = some 1
    ∧ findRelationNode scenario0 "parentship" ("parent", "child") (0, 2)
        = some 4
    ∧ scenario0.nodeAttr? 4 "input" = some 1
    ∧ scenario0.nodeAttr? 4 "solution" = some 1 := by
  decide

/-- C9: `create_graphs_tuple()` returns exactly 10 graphs, those of
scenario indices 0, 1, 2, 3, 5, 6, 7, 8, 9, 10, in that order. -/
theorem C9_create_graphs_tuple_fixed_corpus :
    createGraphsTuple.length = 10
    ∧ createGraphsTuple
      = [createGraph 0, createGraph 1, createGraph 2, createGraph 3,
         createGraph 5, createGraph 6, createGraph 7, createGraph 8,
         createGraph 9, createGraph 10]
    ∧ createGraphsTuple.all Option.isSome = true := by
  refine ⟨rfl, rfl, by decide⟩

/-- C10: scenarios 5 and 6 execute identical recipes, so the corpus
returned by `create_graphs_tuple` holds the same labeled graph at
positions 4 and 5 — a duplicated scenario. -/
theorem C10_scenario5_eq_scenario6 :
    createGraph 5 = createGraph 6
    ∧ (createGraph 5).isSome = true
    ∧ createGraphsTuple.get? 4 = createGraphsTuple.get? 5
    ∧ (4 : Nat) ≠ 5 := by
  refine ⟨by decide, by decide, by decide, by decide⟩

end KinshipData
